import Mathlib

/-!
Cache line metadata, cache counters and line promotion of the Sniper cache model

Shallow embedding of

* `common/core/memory_subsystem/cache/cache_block_info.cc` (`CacheBlockInfo`), and
* `common/core/memory_subsystem/cache/cache.cc` (`Cache`): the statistics counters,
  the promotion heuristic `updateLSC`, and the line access and set-index functions.

Machine integers are natural numbers, reduced modulo `2 ^ width` wherever the C++
code stores into a fixed-width unsigned variable.  The headers declaring
`BitsUsedType`, `BitsUsedOffset` and `IntPtr` are not part of the sources, so the
bit width of the usage mask (`usedBits`), the region shift (`BitsUsedOffset`) and
the bit width of an address (`ptrBits`) are parameters of the definitions using them.
`CacheSet` and `CacheBase::splitAddress` are not part of the sources either: they are
modelled from the specification, and `CacheSet::find` and `CacheSet::invalidate` are
arguments of the functions calling them.  Undefined behaviour (an undefined shift,
an array index out of bounds, a failed assertion) is the result `none`.
-/

/-! ## Machine arithmetic -/

/-- Bitwise complement `~x` of a value held in an unsigned word of `bits` bits. -/
def bitNot (bits x : Nat) : Nat := 2 ^ bits - 1 - x

/-- Width at which C++ evaluates a bitwise operator on operands of `bits` bits:
operands narrower than `int` are promoted to 32 bits first. -/
def promotedBits (bits : Nat) : Nat := max bits 32

/-- Left shift `a << n` on `UInt64`; the shift is undefined from 64 bits on. -/
def shiftLeft64 (a n : Nat) : Option Nat :=
  if n < 64 then some ((a <<< n) % 2 ^ 64) else none

/-- Right shift `a >> n` on `UInt32`; the shift is undefined from 32 bits on. -/
def shiftRight32 (a n : Nat) : Option Nat :=
  if n < 32 then some (a >>> n) else none

/-- Conversion of an `int` to an unsigned word of `bits` bits. -/
def toUnsigned (bits : Nat) (x : Int) : Nat := (x % 2 ^ bits).toNat

/-! ## CacheBlockInfo -/

/-- Modelled from the spec: `CacheState::cstate_t` is declared in `cache_state.h`,
which is absent; the coherence state is an opaque small enum with the reset state
`INVALID`, every other state being carried as its enumerator code. -/
inductive cstate_t where
  | INVALID
  | state (code : Nat)
deriving DecidableEq, Repr

/-- The data members of `CacheBlockInfo` written by its constructor
(`m_tag`, `m_cstate`, `m_owner`, `m_used`, `m_options`, `m_dirtyWord`). -/
structure CacheBlockInfo where
  m_tag : Nat
  m_cstate : cstate_t
  m_owner : Nat
  m_used : Nat
  m_options : Nat
  m_dirtyWord : Nat
deriving DecidableEq, Repr

namespace CacheBlockInfo

/-- The member function `CacheBlockInfo::invalidate()`: `m_tag = ~0`, the `int` value `~0`
being converted to the `ptrBits`-bit `IntPtr`, and `m_cstate = CacheState::INVALID`. -/
def invalidate (ptrBits : Nat) (self : CacheBlockInfo) : CacheBlockInfo :=
  let self := { self with m_tag := toUnsigned ptrBits (~~~ (0 : Int)) }
  { self with m_cstate := cstate_t.INVALID }

/-- The member function `CacheBlockInfo::updateUsage(BitsUsedType used)`. The argument is
converted to the `usedBits`-bit `BitsUsedType`; the result is the returned flag
and the record after the call. -/
def updateUsage (usedBits : Nat) (self : CacheBlockInfo) (used : Nat) :
    Bool × CacheBlockInfo :=
  let used := used % 2 ^ usedBits
  let new_bits_set : Bool :=
    decide (used &&& bitNot (promotedBits usedBits) self.m_used ≠ 0)
  let self := { self with m_used := (self.m_used ||| used) % 2 ^ usedBits }
  (new_bits_set, self)

/-- The overload `CacheBlockInfo::updateUsage(UInt32 offset, UInt32 size)`. `offset` and
`size` are `UInt32` values; `offset + size - 1` is computed in `UInt32`, the masks
in `UInt64`. The result is `none` when a shift of the computation is undefined. -/
def updateUsageOffsetSize (usedBits BitsUsedOffset : Nat) (self : CacheBlockInfo)
    (offset size : Nat) : Option (Bool × CacheBlockInfo) := do
  let first ← shiftRight32 offset BitsUsedOffset
  let last ← shiftRight32 ((offset + size + (2 ^ 32 - 1)) % 2 ^ 32) BitsUsedOffset
  let one_shl_first ← shiftLeft64 1 first
  let first_mask := (one_shl_first + (2 ^ 64 - 1)) % 2 ^ 64
  let one_shl_last ← shiftLeft64 1 ((last + 1) % 2 ^ 64)
  let last_mask := (one_shl_last + (2 ^ 64 - 1)) % 2 ^ 64
  let usage_mask := last_mask &&& bitNot 64 first_mask
  some (updateUsage usedBits self usage_mask)

/-- The member function `CacheBlockInfo::setDirtyBit(UInt32 i)`; `m_dirtyWord` is a `UInt8`. -/
def setDirtyBit (self : CacheBlockInfo) (i : Nat) : CacheBlockInfo :=
  match i with
  | 0 => { self with m_dirtyWord := (self.m_dirtyWord ||| 0b00000001) % 2 ^ 8 }
  | 1 => { self with m_dirtyWord := (self.m_dirtyWord ||| 0b00000010) % 2 ^ 8 }
  | 2 => { self with m_dirtyWord := (self.m_dirtyWord ||| 0b00000100) % 2 ^ 8 }
  | 3 => { self with m_dirtyWord := (self.m_dirtyWord ||| 0b00001000) % 2 ^ 8 }
  | 4 => { self with m_dirtyWord := (self.m_dirtyWord ||| 0b00010000) % 2 ^ 8 }
  | 5 => { self with m_dirtyWord := (self.m_dirtyWord ||| 0b00100000) % 2 ^ 8 }
  | 6 => { self with m_dirtyWord := (self.m_dirtyWord ||| 0b01000000) % 2 ^ 8 }
  | 7 => { self with m_dirtyWord := (self.m_dirtyWord ||| 0b10000000) % 2 ^ 8 }
  | _ => { self with m_dirtyWord := 0 }

/-- The member function `CacheBlockInfo::resetDirtyBit(UInt32 i)`. -/
def resetDirtyBit (self : CacheBlockInfo) (i : Nat) : CacheBlockInfo :=
  match i with
  | 0 => { self with m_dirtyWord := (self.m_dirtyWord &&& 0b11111110) % 2 ^ 8 }
  | 1 => { self with m_dirtyWord := (self.m_dirtyWord &&& 0b11111101) % 2 ^ 8 }
  | 2 => { self with m_dirtyWord := (self.m_dirtyWord &&& 0b11111011) % 2 ^ 8 }
  | 3 => { self with m_dirtyWord := (self.m_dirtyWord &&& 0b11110111) % 2 ^ 8 }
  | 4 => { self with m_dirtyWord := (self.m_dirtyWord &&& 0b11101111) % 2 ^ 8 }
  | 5 => { self with m_dirtyWord := (self.m_dirtyWord &&& 0b11011111) % 2 ^ 8 }
  | 6 => { self with m_dirtyWord := (self.m_dirtyWord &&& 0b10111111) % 2 ^ 8 }
  | 7 => { self with m_dirtyWord := (self.m_dirtyWord &&& 0b01111111) % 2 ^ 8 }
  | _ => { self with m_dirtyWord := 0 }

end CacheBlockInfo

/-- Records are reached through pointers: a store maps each address to the record
it holds. -/
abbrev BlockStore := Nat → CacheBlockInfo

/-- The member function `CacheBlockInfo::clone(CacheBlockInfo* cache_block_info)`, run on the
record at address `this` with the argument pointing at `source`: six member
assignments in the order of the source, each reading the argument's record from
the store as it is at that point. -/
def CacheBlockInfo.clone (store : BlockStore) (this source : Nat) : BlockStore :=
  let store := Function.update store this
    { store this with m_tag := (store source).m_tag }
  let store := Function.update store this
    { store this with m_cstate := (store source).m_cstate }
  let store := Function.update store this
    { store this with m_owner := (store source).m_owner }
  let store := Function.update store this
    { store this with m_used := (store source).m_used }
  let store := Function.update store this
    { store this with m_options := (store source).m_options }
  Function.update store this
    { store this with m_dirtyWord := (store source).m_dirtyWord }

/-! ## Cache statistics counters -/

/-- The statistics members of `Cache`: the enable flag and the two `UInt64`
counters. -/
structure Cache where
  m_enabled : Bool
  m_num_accesses : Nat
  m_num_hits : Nat
deriving DecidableEq, Repr

namespace Cache

/-- The member initialisers of the constructor `Cache::Cache`:
`m_enabled(false)`, `m_num_accesses(0)`, `m_num_hits(0)`. -/
def init : Cache :=
  { m_enabled := false, m_num_accesses := 0, m_num_hits := 0 }

/-- The member function `Cache::updateCounters(bool cache_hit)`. -/
def updateCounters (self : Cache) (cache_hit : Bool) : Cache :=
  if self.m_enabled then
    let self := { self with m_num_accesses := (self.m_num_accesses + 1) % 2 ^ 64 }
    if cache_hit then
      { self with m_num_hits := (self.m_num_hits + 1) % 2 ^ 64 }
    else self
  else self

/-- The member function `Cache::updateHits(Core::mem_op_t mem_op_type, UInt64 hits)`; the
memory operation kind is carried as its enumerator code and is not used. -/
def updateHits (self : Cache) (_mem_op_type : Nat) (hits : Nat) : Cache :=
  if self.m_enabled then
    let self := { self with m_num_accesses := (self.m_num_accesses + hits) % 2 ^ 64 }
    { self with m_num_hits := (self.m_num_hits + hits) % 2 ^ 64 }
  else self

/-- One call of a counter-updating member function, with its arguments. -/
inductive CounterCall where
  | updateCounters (cache_hit : Bool)
  | updateHits (mem_op_type : Nat) (hits : Nat)
deriving DecidableEq, Repr

/-- Performs one counter call on the cache. -/
def call (self : Cache) : CounterCall → Cache
  | CounterCall.updateCounters cache_hit => self.updateCounters cache_hit
  | CounterCall.updateHits mem_op_type hits => self.updateHits mem_op_type hits

/-- Performs a sequence of counter calls, first to last. -/
def run (self : Cache) (calls : List CounterCall) : Cache :=
  calls.foldl call self

/-- Number of accesses a sequence of calls reports: one for each `updateCounters`,
`hits` for each `updateHits`. -/
def reported : List CounterCall → Nat
  | [] => 0
  | CounterCall.updateCounters _ :: rest => 1 + reported rest
  | CounterCall.updateHits _ hits :: rest => hits + reported rest

end Cache

/-- Sub-block region `k`, the bytes `[k * 2^B, (k+1) * 2^B)`, overlaps the byte
range `[offset, offset + size)`. -/
def regionOverlaps (B k offset size : Nat) : Prop :=
  k * 2 ^ B < offset + size ∧ offset < (k + 1) * 2 ^ B

instance (B k offset size : Nat) : Decidable (regionOverlaps B k offset size) := by
  unfold regionOverlaps; infer_instance

/-! ## Line metadata factory -/

/-- Modelled from the spec: `CacheBase::cache_t` is declared in `cache_base.h`, which
is absent; the three cache types the factory recognises are named, and `other`
stands for every enumerator value that is none of the three. -/
inductive cache_t where
  | PR_L1_CACHE
  | PR_L2_CACHE
  | SHARED_CACHE
  | other (code : Nat)
deriving DecidableEq, Repr

/-- The classes of line metadata the factory instantiates; they are declared in
`pr_l1_cache_block_info.h`, `pr_l2_cache_block_info.h` and
`shared_cache_block_info.h`, which are absent. -/
inductive BlockInfoClass where
  | PrL1CacheBlockInfo
  | PrL2CacheBlockInfo
  | SharedCacheBlockInfo
deriving DecidableEq, Repr

/-- The static member function `CacheBlockInfo::create(CacheBase::cache_t cache_type)`.
The first component is the class of the object allocated by `new`, `none` being
the `NULL` result; the second tells whether `LOG_PRINT_ERROR` was reached. -/
def CacheBlockInfo.create (cache_type : cache_t) : Option BlockInfoClass × Bool :=
  match cache_type with
  | cache_t.PR_L1_CACHE => (some BlockInfoClass.PrL1CacheBlockInfo, false)
  | cache_t.PR_L2_CACHE => (some BlockInfoClass.PrL2CacheBlockInfo, false)
  | cache_t.SHARED_CACHE => (some BlockInfoClass.SharedCacheBlockInfo, false)
  | _ => (none, true)

/-! ## Cache sets -/

/-- Byte memory reached through `Byte*` buffer pointers: the byte at each address.
Every address is taken to be readable and writable, and the memory is apart from
the line data of the sets. -/
abbrev ByteMemory := Nat → Nat

/-- Modelled from the spec: `CacheSet` is declared in `cache_set.h`, which is absent.
A set pairs, for each line index below the associativity, one line metadata
record (`m_cache_block_info_array`, a pointer into the record store) with one byte
region of `m_blocksize` bytes (`m_blocks`, by line index and byte offset), and keeps
16 promotion counters (`m_LSC`, taken as `UInt32` like the locals of `updateLSC`
that receive them). -/
structure CacheSet where
  m_associativity : Nat
  m_blocksize : Nat
  m_cache_block_info_array : Nat → Nat
  m_blocks : Nat → Nat → Nat
  m_LSC : Nat → Nat

namespace CacheSet

/-- Modelled from the spec: `CacheSet::read_line(line_index, offset, out_buff, bytes,
update_replacement)` copies `bytes` bytes of the line's byte region, from `offset`
on, to the memory `out_buff` points at. Reading outside the set's lines or outside
the line's byte region is undefined (`none`). Replacement state is not modelled. -/
def read_line (self : CacheSet) (mem : ByteMemory) (line_index offset out_buff bytes : Nat)
    (_update_replacement : Bool) : Option ByteMemory :=
  if line_index < self.m_associativity ∧ offset + bytes ≤ self.m_blocksize then
    some (fun a =>
      if out_buff ≤ a ∧ a < out_buff + bytes then
        self.m_blocks line_index (offset + (a - out_buff))
      else mem a)
  else none

/-- Modelled from the spec: `CacheSet::write_line(line_index, offset, in_buff, bytes,
update_replacement)` copies `bytes` bytes from the memory `in_buff` points at into
the line's byte region, from `offset` on. Writing outside the set's lines or
outside the line's byte region is undefined (`none`). -/
def write_line (self : CacheSet) (mem : ByteMemory) (line_index offset in_buff bytes : Nat)
    (_update_replacement : Bool) : Option CacheSet :=
  if line_index < self.m_associativity ∧ offset + bytes ≤ self.m_blocksize then
    some { self with
      m_blocks := fun l o =>
        if l = line_index ∧ offset ≤ o ∧ o < offset + bytes then
          mem (in_buff + (o - offset))
        else self.m_blocks l o }
  else none

end CacheSet

/-- The set members of `Cache`: `m_num_sets`, `m_associativity` and the array
`m_sets`, by set index. -/
structure CacheSets where
  m_num_sets : Nat
  m_associativity : Nat
  m_sets : Nat → CacheSet

namespace Cache

/-- The loop `for(int i=0; i<4; i++)` of `Cache::updateLSC`, run from the given values
of `minSRAMLSC` and `minSRAMLSClineNum`; the result is their final values. -/
def scanFastTier (m_LSC : Nat → Nat) (minSRAMLSC minSRAMLSClineNum : Nat) : Nat × Nat :=
  (List.range 4).foldl
    (fun (st : Nat × Nat) i => if m_LSC i < st.1 then (m_LSC i, i) else st)
    (minSRAMLSC, minSRAMLSClineNum)

/-- The body of the loop `for(UInt32 offset = 0; offset<64; offset+=8)` of
`Cache::updateLSC`: two `read_line` calls into `out1` and `out2`, two `write_line`
calls from `out2` and `out1`. -/
def swapChunk (out1 out2 minSRAMLSClineNum lineNum bytes : Nat)
    (st : CacheSet × ByteMemory) (offset : Nat) : Option (CacheSet × ByteMemory) := do
  let mem ← st.1.read_line st.2 minSRAMLSClineNum offset out1 bytes false
  let mem ← st.1.read_line mem lineNum offset out2 bytes false
  let cacheSet ← st.1.write_line mem minSRAMLSClineNum offset out2 bytes false
  let cacheSet ← cacheSet.write_line mem lineNum offset out1 bytes false
  some (cacheSet, mem)

/-- The offsets `0, 8, ..., 56` the loop `for(UInt32 offset = 0; offset<64; offset+=8)`
runs through. -/
def swapOffsets : List Nat := (List.range 8).map (fun k => 8 * k)

/-- The loop `for(int i=0; i<16; i++) m_LSC[i]=0` of `Cache::updateLSC`. -/
def resetLSC (m_LSC : Nat → Nat) : Nat → Nat :=
  (List.range 16).foldl (fun m i => Function.update m i 0) m_LSC

/-- The block of `Cache::updateLSC` guarded by `if(minSRAMLSClineNum!=-1)`: the data of
the two lines is exchanged chunk by chunk and their metadata pointers are
exchanged. -/
def swapLines (cacheSet : CacheSet) (mem : ByteMemory) (out1 out2 minSRAMLSClineNum lineNum : Nat) :
    Option (CacheSet × ByteMemory) := do
  let bytes := 8
  let (cacheSet, mem) ← swapOffsets.foldlM (swapChunk out1 out2 minSRAMLSClineNum lineNum bytes)
    (cacheSet, mem)
  let info1 := cacheSet.m_cache_block_info_array minSRAMLSClineNum
  let info2 := cacheSet.m_cache_block_info_array lineNum
  let cacheSet := { cacheSet with
    m_cache_block_info_array :=
      Function.update cacheSet.m_cache_block_info_array minSRAMLSClineNum info2 }
  let cacheSet := { cacheSet with
    m_cache_block_info_array :=
      Function.update cacheSet.m_cache_block_info_array lineNum info1 }
  some (cacheSet, mem)

/-- The member function `Cache::updateLSC(UInt32 setNum, UInt32 lineNum)`. The source
declares the buffer pointers `out1` and `out2` without initialising them: their
indeterminate values are arguments, and `mem` is the memory they point into. The
result is `none` when the call is undefined (a set index not below `m_num_sets`, a
line index not among the 16 counters, or an undefined `read_line`/`write_line`). -/
def updateLSC (self : CacheSets) (mem : ByteMemory) (out1 out2 : Nat) (setNum lineNum : Nat) :
    Option (CacheSets × ByteMemory) :=
  if setNum < self.m_num_sets ∧ lineNum < 16 then
    let cacheSet := self.m_sets setNum
    let cacheSet := { cacheSet with
      m_LSC := Function.update cacheSet.m_LSC lineNum ((cacheSet.m_LSC lineNum + 1) % 2 ^ 32) }
    let minSRAMLSC := cacheSet.m_LSC lineNum
    let minSRAMLSClineNum := toUnsigned 32 (-1)
    if lineNum ≥ 4 then
      if cacheSet.m_LSC lineNum ≥ 3 then do
        let minSRAMLSClineNum := (scanFastTier cacheSet.m_LSC minSRAMLSC minSRAMLSClineNum).2
        let (cacheSet, mem) ←
          if minSRAMLSClineNum ≠ toUnsigned 32 (-1) then
            swapLines cacheSet mem out1 out2 minSRAMLSClineNum lineNum
          else some (cacheSet, mem)
        let cacheSet := { cacheSet with m_LSC := resetLSC cacheSet.m_LSC }
        some ({ self with m_sets := Function.update self.m_sets setNum cacheSet }, mem)
      else
        some ({ self with m_sets := Function.update self.m_sets setNum cacheSet }, mem)
    else
      some ({ self with m_sets := Function.update self.m_sets setNum cacheSet }, mem)
  else none

end Cache

/-! ## Address decomposition and line access -/

/-- Modelled from the spec: `CacheBase::splitAddress` is defined in `cache_base.cc`,
which is absent. The spec's decomposition of an address for a cache of
`2 ^ log_num_sets` sets with lines of `2 ^ log_blocksize` bytes: the tag is the
address shifted right by both logarithms, the set index the bits between, the
block offset the low bits. The result is `(tag, set_index, block_offset)`. -/
def CacheBase.splitAddress (log_blocksize log_num_sets addr : Nat) : Nat × Nat × Nat :=
  (addr >>> (log_blocksize + log_num_sets),
    (addr >>> log_blocksize) % 2 ^ log_num_sets,
    addr % 2 ^ log_blocksize)

/-- Modelled from the spec: the address that a tag, a set index and a block offset
reconstruct. -/
def CacheBase.reconstruct (log_blocksize log_num_sets tag set_index block_offset : Nat) :
    Nat :=
  (tag <<< (log_blocksize + log_num_sets)) + (set_index <<< log_blocksize) + block_offset

/-- Modelled from the spec: `Cache::access_t` is declared in `cache_base.h`, which is
absent; the access kinds are `LOAD` and `STORE`. -/
inductive access_t where
  | LOAD
  | STORE
deriving DecidableEq, Repr

/-- Modelled from the spec: the fault injector is an external collaborator; its
`preRead` and `postWrite` hooks receive the address, the slot identity, the length,
the line index and offset of the data they are pointed at and the timestamp, and
may perturb the data of the set. -/
structure FaultInjector where
  preRead : Nat → Nat → Nat → Nat → Nat → Nat → CacheSet → CacheSet
  postWrite : Nat → Nat → Nat → Nat → Nat → Nat → CacheSet → CacheSet

/-- Calls that `Cache::accessSingleLine` issues to the set and to the fault injector. -/
inductive AccessEvent where
  | preRead (addr location bytes : Nat)
  | read_line (line_index offset out_buff bytes : Nat)
  | write_line (line_index offset in_buff bytes : Nat)
  | postWrite (addr location bytes : Nat)
deriving DecidableEq, Repr

namespace Cache

/-- The member function `Cache::getSetIndex(IntPtr addr)`; `none` when
`assert(set_index < m_num_sets)` fails. `splitAddress` is the decomposition the
cache is built with. -/
def getSetIndex (splitAddress : Nat → Nat × Nat × Nat) (self : CacheSets) (addr : Nat) :
    Option Nat :=
  let set_index := (splitAddress addr).2.1
  if set_index < self.m_num_sets then some set_index else none

/-- The member function `Cache::getSetLock(IntPtr addr)`; `none` when
`assert(set_index < m_num_sets)` fails, otherwise the index of the set whose lock
is returned. -/
def getSetLock (splitAddress : Nat → Nat × Nat × Nat) (self : CacheSets) (addr : Nat) :
    Option Nat :=
  let set_index := (splitAddress addr).2.1
  if set_index < self.m_num_sets then some set_index else none

/-- The member function `Cache::invalidateSingleLine(IntPtr addr)`; `none` when
`assert(set_index < m_num_sets)` fails. `invalidate` is `CacheSet::invalidate(tag)`,
which is absent: it returns its flag and the set after the call. -/
def invalidateSingleLine (splitAddress : Nat → Nat × Nat × Nat)
    (invalidate : CacheSet → Nat → Bool × CacheSet) (self : CacheSets) (addr : Nat) :
    Option (Bool × CacheSets) :=
  let tag := (splitAddress addr).1
  let set_index := (splitAddress addr).2.1
  if set_index < self.m_num_sets then
    let res := invalidate (self.m_sets set_index) tag
    some (res.1, { self with m_sets := Function.update self.m_sets set_index res.2 })
  else none

/-- The member function `Cache::accessSingleLine(addr, access_type, buff, bytes, now,
update_replacement)`. `find` is `CacheSet::find(tag, &line_index)`, which is absent: it
returns the metadata pointer and the line index, or `none` for `NULL`. The result
is the returned pointer (`none` for `NULL`), the sets, the memory `buff` points
into and the calls issued, in order; it is `none` when the call is undefined (a
set index not below `m_num_sets`, or an undefined `read_line`/`write_line`). -/
def accessSingleLine (splitAddress : Nat → Nat × Nat × Nat)
    (find : CacheSet → Nat → Option (Nat × Nat)) (m_fault_injector : Option FaultInjector)
    (self : CacheSets) (mem : ByteMemory) (addr : Nat) (access_type : access_t)
    (buff bytes now : Nat) (update_replacement : Bool) :
    Option (Option Nat × CacheSets × ByteMemory × List AccessEvent) :=
  let tag := (splitAddress addr).1
  let set_index := (splitAddress addr).2.1
  let block_offset := (splitAddress addr).2.2
  if set_index < self.m_num_sets then
    let cacheSet := self.m_sets set_index
    match find cacheSet tag with
    | none => some (none, self, mem, [])
    | some (cache_block_info, line_index) =>
      let location := set_index * self.m_associativity + line_index
      match access_type with
      | access_t.LOAD =>
        let (cacheSet, events) :=
          match m_fault_injector with
          | some fi =>
            (fi.preRead addr location bytes line_index block_offset now cacheSet,
              [AccessEvent.preRead addr location bytes])
          | none => (cacheSet, [])
        (cacheSet.read_line mem line_index block_offset buff bytes update_replacement).bind
          (fun mem =>
            some (some cache_block_info,
              { self with m_sets := Function.update self.m_sets set_index cacheSet }, mem,
              events ++ [AccessEvent.read_line line_index block_offset buff bytes]))
      | _ =>
        (cacheSet.write_line mem line_index block_offset buff bytes update_replacement).bind
          (fun cacheSet =>
            let events := [AccessEvent.write_line line_index block_offset buff bytes]
            let (cacheSet, events) :=
              match m_fault_injector with
              | some fi =>
                (fi.postWrite addr location bytes line_index block_offset now cacheSet,
                  events ++ [AccessEvent.postWrite addr location bytes])
              | none => (cacheSet, events)
            some (some cache_block_info,
              { self with m_sets := Function.update self.m_sets set_index cacheSet }, mem,
              events))
  else none

end Cache

/-! ## Sample states -/

/-- A set of 16 lines of `blocksize` bytes with the given promotion counters: slot `i`
holds the metadata pointer `100 + i`, and every byte of its line is `i + 1`. -/
def sampleSet (blocksize : Nat) (m_LSC : Nat → Nat) : CacheSet :=
  { m_associativity := 16, m_blocksize := blocksize,
    m_cache_block_info_array := fun i => 100 + i,
    m_blocks := fun l _ => l + 1, m_LSC := m_LSC }

/-- Two sets, each a `sampleSet`. -/
def sampleSets (blocksize : Nat) (m_LSC : Nat → Nat) : CacheSets :=
  { m_num_sets := 2, m_associativity := 16, m_sets := fun _ => sampleSet blocksize m_LSC }

/-- One call `updateLSC(setNum, lineNum)` on a given set: the line index, and the values
the two uninitialised buffer pointers have during the call. -/
structure LSCCall where
  lineNum : Nat
  out1 : Nat
  out2 : Nat

/-- Performs a sequence of `updateLSC` calls on set `setNum`, first to last; `none` as
soon as one of them is undefined. -/
def Cache.runLSC (setNum : Nat) :
    CacheSets × ByteMemory → List LSCCall → Option (CacheSets × ByteMemory)
  | st, [] => some st
  | st, c :: rest =>
    (Cache.updateLSC st.1 st.2 c.out1 c.out2 setNum c.lineNum).bind
      (fun st' => Cache.runLSC setNum st' rest)
/-! ## Bit-level lemmas -/

theorem testBit_bitNot (bits x k : Nat) (hx : x < 2 ^ bits) :
    (bitNot bits x).testBit k = (decide (k < bits) && !x.testBit k) := by
  have h : bitNot bits x = 2 ^ bits - (x + 1) := by unfold bitNot; omega
  rw [h, Nat.testBit_two_pow_sub_succ hx]

theorem testBit_lt_of_lt_two_pow {x n k : Nat} (hx : x < 2 ^ n) (hk : x.testBit k = true) :
    k < n := by
  by_contra hcon
  have hle : 2 ^ n ≤ 2 ^ k := Nat.pow_le_pow_right (by decide) (Nat.le_of_not_lt hcon)
  have hf := Nat.testBit_lt_two_pow (Nat.lt_of_lt_of_le hx hle)
  rw [hk] at hf
  exact Bool.noConfusion hf

theorem and_bitNot_ne_zero_iff (bits used m : Nat) (hm : m < 2 ^ bits)
    (hused : used < 2 ^ bits) :
    used &&& bitNot bits m ≠ 0 ↔ ∃ k, used.testBit k = true ∧ m.testBit k = false := by
  constructor
  · intro hne
    obtain ⟨k, hk⟩ := Nat.ne_zero_implies_bit_true hne
    rw [Nat.testBit_and, testBit_bitNot bits m k hm] at hk
    refine ⟨k, ?_, ?_⟩
    · cases hu : used.testBit k <;> simp_all
    · cases hmk : m.testBit k <;> simp_all
  · rintro ⟨k, hu, hmk⟩ hzero
    have hk : (used &&& bitNot bits m).testBit k = true := by
      rw [Nat.testBit_and, testBit_bitNot bits m k hm, hu, hmk]
      simp [testBit_lt_of_lt_two_pow hused hu]
    rw [hzero] at hk
    simp at hk

theorem or_eq_left_of_bits_subset (m used : Nat)
    (hsub : ∀ k, used.testBit k = true → m.testBit k = true) : m ||| used = m := by
  apply Nat.eq_of_testBit_eq
  intro k
  rw [Nat.testBit_or]
  cases hu : used.testBit k
  · simp
  · simp [hsub k hu]

theorem two_pow_le_promoted (usedBits : Nat) : 2 ^ usedBits ≤ 2 ^ promotedBits usedBits :=
  Nat.pow_le_pow_right (by decide) (le_max_left usedBits 32)

/-! ## Usage mask -/

theorem updateUsage_flag_iff (usedBits : Nat) (self : CacheBlockInfo) (used : Nat)
    (hself : self.m_used < 2 ^ usedBits) (hused : used < 2 ^ usedBits) :
    (self.updateUsage usedBits used).1 = true ↔
      ∃ k, used.testBit k = true ∧ self.m_used.testBit k = false := by
  have hp := two_pow_le_promoted usedBits
  have h := and_bitNot_ne_zero_iff (promotedBits usedBits) used self.m_used
    (Nat.lt_of_lt_of_le hself hp) (Nat.lt_of_lt_of_le hused hp)
  simp only [CacheBlockInfo.updateUsage, Nat.mod_eq_of_lt hused, decide_eq_true_eq]
  exact h

theorem updateUsage_used_eq (usedBits : Nat) (self : CacheBlockInfo) (used : Nat)
    (hself : self.m_used < 2 ^ usedBits) (hused : used < 2 ^ usedBits) :
    (self.updateUsage usedBits used).2 = { self with m_used := self.m_used ||| used } := by
  simp only [CacheBlockInfo.updateUsage, Nat.mod_eq_of_lt hused,
    Nat.mod_eq_of_lt (Nat.or_lt_two_pow hself hused)]

/-- C1: for a record whose usage mask is a `usedBits`-bit value and every
`usedBits`-bit mask `used`, `updateUsage(used)` returns true exactly when `used`
has a bit that was not set in `m_used` before the call, and afterwards `m_used`
is the bitwise OR of its previous value and `used` (no other member changes). -/
theorem CacheBlockInfo.updateUsage_mask_spec (usedBits : Nat) (self : CacheBlockInfo)
    (used : Nat) (hself : self.m_used < 2 ^ usedBits) (hused : used < 2 ^ usedBits) :
    ((self.updateUsage usedBits used).1 = true ↔
        ∃ k, used.testBit k = true ∧ self.m_used.testBit k = false) ∧
      (self.updateUsage usedBits used).2.m_used = self.m_used ||| used ∧
      (self.updateUsage usedBits used).2 = { self with m_used := self.m_used ||| used } := by
  refine ⟨updateUsage_flag_iff usedBits self used hself hused, ?_, ?_⟩
  · rw [updateUsage_used_eq usedBits self used hself hused]
  · exact updateUsage_used_eq usedBits self used hself hused

/-- Witness of C1: an 8-bit usage mask `0b0101` updated with `0b0110`. -/
theorem CacheBlockInfo.updateUsage_mask_spec_witness :
    ((CacheBlockInfo.updateUsage 8 ⟨7, cstate_t.state 1, 0, 5, 0, 0⟩ 6).1 = true ↔
        ∃ k, (6 : Nat).testBit k = true ∧
          (CacheBlockInfo.mk 7 (cstate_t.state 1) 0 5 0 0).m_used.testBit k = false) ∧
      (CacheBlockInfo.updateUsage 8 ⟨7, cstate_t.state 1, 0, 5, 0, 0⟩ 6).2.m_used =
        (CacheBlockInfo.mk 7 (cstate_t.state 1) 0 5 0 0).m_used ||| 6 ∧
      (CacheBlockInfo.updateUsage 8 ⟨7, cstate_t.state 1, 0, 5, 0, 0⟩ 6).2 =
        { CacheBlockInfo.mk 7 (cstate_t.state 1) 0 5 0 0 with
          m_used := (CacheBlockInfo.mk 7 (cstate_t.state 1) 0 5 0 0).m_used ||| 6 } :=
  CacheBlockInfo.updateUsage_mask_spec 8 ⟨7, cstate_t.state 1, 0, 5, 0, 0⟩ 6
    (by decide) (by decide)

/-! ## Usage mask of a byte range -/

theorem testBit_rangeMask (first last k : Nat) (hfirst : first ≤ 64) :
    ((2 ^ (last + 1) - 1) &&& bitNot 64 (2 ^ first - 1)).testBit k =
      (decide (k ≤ last) && (decide (k < 64) && decide (first ≤ k))) := by
  have hlt : 2 ^ first - 1 < 2 ^ 64 := by
    have h1 : 2 ^ first ≤ 2 ^ 64 := Nat.pow_le_pow_right (by decide) hfirst
    have h2 : 0 < 2 ^ first := Nat.pow_pos (by decide)
    omega
  rw [Nat.testBit_and, testBit_bitNot 64 _ k hlt, Nat.testBit_two_pow_sub_one,
    Nat.testBit_two_pow_sub_one]
  congr 1
  · simp [Nat.lt_succ_iff]
  · congr 1
    by_cases h : k < first <;> simp [h]
    omega

theorem sub_one_mod_two_pow_64 (x : Nat) (h1 : 0 < x) (h2 : x ≤ 2 ^ 64) :
    (x % 2 ^ 64 + (2 ^ 64 - 1)) % 2 ^ 64 = x - 1 := by
  norm_num at *
  omega

theorem updateUsageOffsetSize_eq (usedBits B : Nat) (self : CacheBlockInfo)
    (offset size : Nat) (hB : B < 32) (hsize : 1 ≤ size) (h32 : offset + size ≤ 2 ^ 32)
    (hlast : (offset + size - 1) / 2 ^ B < 63) :
    self.updateUsageOffsetSize usedBits B offset size =
      some (self.updateUsage usedBits
        ((2 ^ ((offset + size - 1) / 2 ^ B + 1) - 1) &&& bitNot 64 (2 ^ (offset / 2 ^ B) - 1))) := by
  have hwrap : (offset + size + (2 ^ 32 - 1)) % 2 ^ 32 = offset + size - 1 := by
    norm_num at *
    omega
  have hfirst : offset / 2 ^ B < 64 := by
    have : offset / 2 ^ B ≤ (offset + size - 1) / 2 ^ B :=
      Nat.div_le_div_right (by omega)
    omega
  have hsucc : ((offset + size - 1) / 2 ^ B + 1) % 2 ^ 64 = (offset + size - 1) / 2 ^ B + 1 :=
    Nat.mod_eq_of_lt (by norm_num; omega)
  have hs1 : (1 <<< (offset / 2 ^ B) % 2 ^ 64 + (2 ^ 64 - 1)) % 2 ^ 64 =
      2 ^ (offset / 2 ^ B) - 1 := by
    rw [Nat.one_shiftLeft]
    exact sub_one_mod_two_pow_64 _ (Nat.pow_pos (by decide))
      (Nat.pow_le_pow_right (by decide) (by omega))
  have hs2 : (1 <<< ((offset + size - 1) / 2 ^ B + 1) % 2 ^ 64 + (2 ^ 64 - 1)) % 2 ^ 64 =
      2 ^ ((offset + size - 1) / 2 ^ B + 1) - 1 := by
    rw [Nat.one_shiftLeft]
    exact sub_one_mod_two_pow_64 _ (Nat.pow_pos (by decide))
      (Nat.pow_le_pow_right (by decide) (by omega))
  simp only [CacheBlockInfo.updateUsageOffsetSize, shiftRight32, shiftLeft64, hB, if_true,
    hwrap, Nat.shiftRight_eq_div_pow, hsucc, hfirst, Option.bind_eq_bind, Option.some_bind,
    hs1, hs2, show (offset + size - 1) / 2 ^ B + 1 < 64 by omega]

theorem regionOverlaps_iff (B k offset size : Nat) (hsize : 1 ≤ size) :
    regionOverlaps B k offset size ↔
      k ≤ (offset + size - 1) / 2 ^ B ∧ offset / 2 ^ B ≤ k := by
  have hpos : 0 < 2 ^ B := Nat.pow_pos (by decide)
  have hfirst : offset / 2 ^ B ≤ k ↔ offset < (k + 1) * 2 ^ B := by
    rw [← Nat.lt_succ_iff, Nat.div_lt_iff_lt_mul hpos]
  unfold regionOverlaps
  rw [Nat.le_div_iff_mul_le hpos, hfirst]
  constructor
  · rintro ⟨h1, h2⟩
    exact ⟨by omega, h2⟩
  · rintro ⟨h1, h2⟩
    exact ⟨by omega, h2⟩

theorem updateUsage_mod (usedBits : Nat) (self : CacheBlockInfo) (used : Nat) :
    self.updateUsage usedBits (used % 2 ^ usedBits) = self.updateUsage usedBits used := by
  simp only [CacheBlockInfo.updateUsage, Nat.mod_mod]

theorem last_region_lt (usedBits B lineSize offset size : Nat)
    (hgeom : lineSize ≤ min usedBits 63 * 2 ^ B) (hsize : 1 ≤ size)
    (hin : offset + size ≤ lineSize) :
    (offset + size - 1) / 2 ^ B < min usedBits 63 := by
  rw [Nat.div_lt_iff_lt_mul (Nat.pow_pos (by decide))]
  omega

/-- The usage mask of an in-bounds byte range: the value `updateUsage(offset, size)`
hands to `updateUsage(BitsUsedType)`, after conversion to `usedBits` bits. -/
theorem updateUsageOffsetSize_region_mask (usedBits B lineSize offset size : Nat)
    (hB : B < 32) (hline : lineSize < 2 ^ 32) (hgeom : lineSize ≤ min usedBits 63 * 2 ^ B)
    (hsize : 1 ≤ size) (hin : offset + size ≤ lineSize) :
    ∃ mask, mask < 2 ^ usedBits ∧
      (∀ k, mask.testBit k = true ↔ regionOverlaps B k offset size) ∧
      ∀ self : CacheBlockInfo,
        self.updateUsageOffsetSize usedBits B offset size =
          some (self.updateUsage usedBits mask) := by
  have hlast := last_region_lt usedBits B lineSize offset size hgeom hsize hin
  have hlast63 : (offset + size - 1) / 2 ^ B < 63 := lt_of_lt_of_le hlast (min_le_right _ _)
  have hlastw : (offset + size - 1) / 2 ^ B < usedBits :=
    lt_of_lt_of_le hlast (min_le_left _ _)
  have hfirst : offset / 2 ^ B ≤ (offset + size - 1) / 2 ^ B :=
    Nat.div_le_div_right (by omega)
  refine ⟨((2 ^ ((offset + size - 1) / 2 ^ B + 1) - 1) &&&
      bitNot 64 (2 ^ (offset / 2 ^ B) - 1)) % 2 ^ usedBits,
    Nat.mod_lt _ (Nat.pow_pos (by decide)), ?_, ?_⟩
  · intro k
    rw [Nat.testBit_mod_two_pow, testBit_rangeMask _ _ _ (by omega),
      regionOverlaps_iff B k offset size hsize]
    simp only [Bool.and_eq_true, decide_eq_true_eq]
    constructor
    · rintro ⟨_, h1, _, h2⟩
      exact ⟨h1, h2⟩
    · rintro ⟨h1, h2⟩
      exact ⟨by omega, h1, by omega, h2⟩
  · intro self
    rw [updateUsage_mod]
    exact updateUsageOffsetSize_eq usedBits B self offset size hB hsize
      (by omega) hlast63

/-- C2: when the usage mask has a bit for every sub-block region of the line
(`lineSize ≤ min usedBits 63 * 2 ^ BitsUsedOffset`, with `BitsUsedOffset < 32` and a
`UInt32` line size), then for every byte range with `size ≥ 1` and
`offset + size ≤ lineSize` the call `updateUsage(offset, size)` is defined and ORs
into `m_used` a mask whose bit `k` is set exactly when region `k`, the bytes
`[k * 2^BitsUsedOffset, (k+1) * 2^BitsUsedOffset)`, overlaps `[offset, offset+size)`. -/
theorem CacheBlockInfo.updateUsage_range_marks_overlapping_regions
    (usedBits B lineSize offset size : Nat)
    (hB : B < 32) (hline : lineSize < 2 ^ 32) (hgeom : lineSize ≤ min usedBits 63 * 2 ^ B)
    (hsize : 1 ≤ size) (hin : offset + size ≤ lineSize) :
    ∃ mask, mask < 2 ^ usedBits ∧
      (∀ k, mask.testBit k = true ↔ regionOverlaps B k offset size) ∧
      ∀ self : CacheBlockInfo, self.m_used < 2 ^ usedBits →
        self.updateUsageOffsetSize usedBits B offset size =
            some (self.updateUsage usedBits mask) ∧
          (self.updateUsage usedBits mask).2.m_used = self.m_used ||| mask := by
  obtain ⟨mask, hmask, hbits, hcall⟩ :=
    updateUsageOffsetSize_region_mask usedBits B lineSize offset size hB hline hgeom hsize hin
  refine ⟨mask, hmask, hbits, fun self hself => ⟨hcall self, ?_⟩⟩
  rw [updateUsage_used_eq usedBits self mask hself hmask]

/-- Witness of C2: bytes `[5, 17)` of a 64-byte line with 8-byte regions and an
8-bit usage mask. -/
theorem CacheBlockInfo.updateUsage_range_marks_overlapping_regions_witness :
    ∃ mask, mask < 2 ^ 8 ∧
      (∀ k, mask.testBit k = true ↔ regionOverlaps 3 k 5 12) ∧
      ∀ self : CacheBlockInfo, self.m_used < 2 ^ 8 →
        self.updateUsageOffsetSize 8 3 5 12 = some (self.updateUsage 8 mask) ∧
          (self.updateUsage 8 mask).2.m_used = self.m_used ||| mask :=
  CacheBlockInfo.updateUsage_range_marks_overlapping_regions 8 3 64 5 12
    (by decide) (by decide) (by decide) (by decide) (by decide)

theorem updateUsage_covered (usedBits : Nat) (self : CacheBlockInfo) (used : Nat)
    (hself : self.m_used < 2 ^ usedBits) (hused : used < 2 ^ usedBits)
    (hsub : ∀ k, used.testBit k = true → self.m_used.testBit k = true) :
    self.updateUsage usedBits used = (false, self) := by
  have hflag : (self.updateUsage usedBits used).1 = false := by
    cases hf : (self.updateUsage usedBits used).1
    · rfl
    · obtain ⟨k, hk, hm⟩ := (updateUsage_flag_iff usedBits self used hself hused).1 hf
      rw [hsub k hk] at hm
      exact Bool.noConfusion hm
  have hrec := updateUsage_used_eq usedBits self used hself hused
  rw [or_eq_left_of_bits_subset self.m_used used hsub] at hrec
  exact Prod.ext hflag hrec

theorem updateUsage_used_lt (usedBits : Nat) (self : CacheBlockInfo) (used : Nat) :
    (self.updateUsage usedBits used).2.m_used < 2 ^ usedBits :=
  Nat.mod_lt _ (Nat.pow_pos (by decide))

/-- C3: with a usage mask that has a bit for every sub-block region of the line, and
for every record and in-bounds byte range (`size ≥ 1`, `offset + size ≤ lineSize`):
`updateUsage(offset, size)` is defined; repeating the same call on the resulting
record returns false and leaves it unchanged; and on any later record every
in-bounds call `updateUsage(offset', size')` whose range overlaps only regions
already recorded in `m_used` returns false and leaves the record unchanged. -/
theorem CacheBlockInfo.updateUsage_retouch_returns_false
    (usedBits B lineSize : Nat) (self : CacheBlockInfo) (offset size : Nat)
    (hB : B < 32) (hline : lineSize < 2 ^ 32) (hgeom : lineSize ≤ min usedBits 63 * 2 ^ B)
    (hself : self.m_used < 2 ^ usedBits)
    (hsize : 1 ≤ size) (hin : offset + size ≤ lineSize) :
    ∃ r, self.updateUsageOffsetSize usedBits B offset size = some r ∧
      r.2.updateUsageOffsetSize usedBits B offset size = some (false, r.2) ∧
      ∀ (later : CacheBlockInfo) (offset' size' : Nat),
        later.m_used < 2 ^ usedBits → 1 ≤ size' → offset' + size' ≤ lineSize →
        (∀ k, regionOverlaps B k offset' size' → later.m_used.testBit k = true) →
        later.updateUsageOffsetSize usedBits B offset' size' = some (false, later) := by
  have hlater : ∀ (later : CacheBlockInfo) (offset' size' : Nat),
      later.m_used < 2 ^ usedBits → 1 ≤ size' → offset' + size' ≤ lineSize →
      (∀ k, regionOverlaps B k offset' size' → later.m_used.testBit k = true) →
      later.updateUsageOffsetSize usedBits B offset' size' = some (false, later) := by
    intro later offset' size' hlt hsize' hin' hcov
    obtain ⟨mask, hmask, hbits, hcall⟩ :=
      updateUsageOffsetSize_region_mask usedBits B lineSize offset' size' hB hline hgeom
        hsize' hin'
    rw [hcall later, updateUsage_covered usedBits later mask hlt hmask
      (fun k hk => hcov k ((hbits k).1 hk))]
  obtain ⟨mask, hmask, hbits, hcall⟩ :=
    updateUsageOffsetSize_region_mask usedBits B lineSize offset size hB hline hgeom hsize hin
  refine ⟨self.updateUsage usedBits mask, hcall self, ?_, hlater⟩
  apply hlater _ offset size (updateUsage_used_lt usedBits self mask) hsize hin
  intro k hk
  rw [updateUsage_used_eq usedBits self mask hself hmask, Nat.testBit_or,
    (hbits k).2 hk, Bool.or_true]

/-- Witness of C3: bytes `[5, 17)` of a 64-byte line with 8-byte regions, on a record
with an empty 8-bit usage mask. -/
theorem CacheBlockInfo.updateUsage_retouch_returns_false_witness :
    ∃ r, CacheBlockInfo.updateUsageOffsetSize 8 3 ⟨0, cstate_t.INVALID, 0, 0, 0, 0⟩ 5 12 =
        some r ∧
      r.2.updateUsageOffsetSize 8 3 5 12 = some (false, r.2) ∧
      ∀ (later : CacheBlockInfo) (offset' size' : Nat),
        later.m_used < 2 ^ 8 → 1 ≤ size' → offset' + size' ≤ 64 →
        (∀ k, regionOverlaps 3 k offset' size' → later.m_used.testBit k = true) →
        later.updateUsageOffsetSize 8 3 offset' size' = some (false, later) :=
  CacheBlockInfo.updateUsage_retouch_returns_false 8 3 64 ⟨0, cstate_t.INVALID, 0, 0, 0, 0⟩ 5 12
    (by decide) (by decide) (by decide) (by decide) (by decide) (by decide)

/-! ## Dirty-word mask -/

theorem setDirtyBit_eq (self : CacheBlockInfo) (i : Nat) (hi : i < 8) :
    self.setDirtyBit i = { self with m_dirtyWord := (self.m_dirtyWord ||| 2 ^ i) % 2 ^ 8 } := by
  interval_cases i <;> rfl

theorem resetDirtyBit_eq (self : CacheBlockInfo) (i : Nat) (hi : i < 8) :
    self.resetDirtyBit i =
      { self with m_dirtyWord := (self.m_dirtyWord &&& bitNot 8 (2 ^ i)) % 2 ^ 8 } := by
  interval_cases i <;> rfl

theorem two_pow_lt_256 (i : Nat) (hi : i < 8) : 2 ^ i < 2 ^ 8 :=
  Nat.pow_lt_pow_right (by decide) hi

theorem testBit_clearBit (m i k : Nat) (hi : i < 8) (hm : m < 2 ^ 8) :
    (m &&& bitNot 8 (2 ^ i)).testBit k = (m.testBit k && !decide (i = k)) := by
  rw [Nat.testBit_and, testBit_bitNot 8 _ k (two_pow_lt_256 i hi), Nat.testBit_two_pow]
  cases hk : m.testBit k
  · simp
  · simp [testBit_lt_of_lt_two_pow hm hk]

theorem setDirtyBit_then_resetDirtyBit (self : CacheBlockInfo) (i : Nat) (hi : i < 8)
    (hm : self.m_dirtyWord < 2 ^ 8) :
    (self.setDirtyBit i).resetDirtyBit i =
      { self with m_dirtyWord := self.m_dirtyWord &&& bitNot 8 (2 ^ i) } := by
  have hset : (self.m_dirtyWord ||| 2 ^ i) < 2 ^ 8 :=
    Nat.or_lt_two_pow hm (two_pow_lt_256 i hi)
  rw [setDirtyBit_eq self i hi, resetDirtyBit_eq _ i hi]
  simp only [Nat.mod_eq_of_lt hset]
  have hbits : (self.m_dirtyWord ||| 2 ^ i) &&& bitNot 8 (2 ^ i) =
      self.m_dirtyWord &&& bitNot 8 (2 ^ i) := by
    apply Nat.eq_of_testBit_eq
    intro k
    rw [testBit_clearBit _ i k hi hset, testBit_clearBit _ i k hi hm, Nat.testBit_or,
      Nat.testBit_two_pow]
    by_cases hik : i = k <;> simp [hik]
  rw [hbits, Nat.mod_eq_of_lt (lt_of_le_of_lt Nat.and_le_left hm)]

/-- C4, as stated, fails: on a record whose dirty mask is `0b00000001`,
`setDirtyBit(0)` followed by `resetDirtyBit(0)` leaves the mask `0`, not the
prior mask. -/
theorem CacheBlockInfo.setDirtyBit_resetDirtyBit_not_restored :
    (((CacheBlockInfo.mk 0 cstate_t.INVALID 0 0 0 1).setDirtyBit 0).resetDirtyBit 0).m_dirtyWord = 0 ∧
      (((CacheBlockInfo.mk 0 cstate_t.INVALID 0 0 0 1).setDirtyBit 0).resetDirtyBit 0).m_dirtyWord ≠
        (CacheBlockInfo.mk 0 cstate_t.INVALID 0 0 0 1).m_dirtyWord := by
  decide

/-- C4, amended: for every 8-bit dirty-word mask `m` and every `i` in `[0,8)`,
`setDirtyBit(i)` followed by `resetDirtyBit(i)` leaves the record with the dirty mask
`m` with bit `i` cleared (all other bits and members as before); the prior mask is
restored exactly when bit `i` was not set in `m`. -/
theorem CacheBlockInfo.setDirtyBit_resetDirtyBit_clears_bit (self : CacheBlockInfo) (i : Nat)
    (hi : i < 8) (hm : self.m_dirtyWord < 2 ^ 8) :
    (self.setDirtyBit i).resetDirtyBit i =
        { self with m_dirtyWord := self.m_dirtyWord &&& bitNot 8 (2 ^ i) } ∧
      (∀ k, ((self.setDirtyBit i).resetDirtyBit i).m_dirtyWord.testBit k =
        (self.m_dirtyWord.testBit k && !decide (i = k))) ∧
      (((self.setDirtyBit i).resetDirtyBit i).m_dirtyWord = self.m_dirtyWord ↔
        self.m_dirtyWord.testBit i = false) := by
  have heq := setDirtyBit_then_resetDirtyBit self i hi hm
  have hbit : ∀ k, ((self.setDirtyBit i).resetDirtyBit i).m_dirtyWord.testBit k =
      (self.m_dirtyWord.testBit k && !decide (i = k)) := by
    intro k
    rw [heq]
    exact testBit_clearBit _ i k hi hm
  refine ⟨heq, hbit, ?_, ?_⟩
  · intro h
    have := hbit i
    rw [h] at this
    simpa using this
  · intro h
    apply Nat.eq_of_testBit_eq
    intro k
    rw [hbit k]
    by_cases hik : i = k
    · subst hik
      simp [h]
    · simp [hik]

/-- Witness of the amended C4: mask `0b00000101`, index 2. -/
theorem CacheBlockInfo.setDirtyBit_resetDirtyBit_clears_bit_witness :
    ((CacheBlockInfo.mk 0 cstate_t.INVALID 0 0 0 5).setDirtyBit 2).resetDirtyBit 2 =
        { CacheBlockInfo.mk 0 cstate_t.INVALID 0 0 0 5 with
          m_dirtyWord := (CacheBlockInfo.mk 0 cstate_t.INVALID 0 0 0 5).m_dirtyWord &&&
            bitNot 8 (2 ^ 2) } ∧
      (∀ k, (((CacheBlockInfo.mk 0 cstate_t.INVALID 0 0 0 5).setDirtyBit 2).resetDirtyBit
          2).m_dirtyWord.testBit k =
        ((CacheBlockInfo.mk 0 cstate_t.INVALID 0 0 0 5).m_dirtyWord.testBit k &&
          !decide (2 = k))) ∧
      ((((CacheBlockInfo.mk 0 cstate_t.INVALID 0 0 0 5).setDirtyBit 2).resetDirtyBit
          2).m_dirtyWord = (CacheBlockInfo.mk 0 cstate_t.INVALID 0 0 0 5).m_dirtyWord ↔
        (CacheBlockInfo.mk 0 cstate_t.INVALID 0 0 0 5).m_dirtyWord.testBit 2 = false) :=
  CacheBlockInfo.setDirtyBit_resetDirtyBit_clears_bit ⟨0, cstate_t.INVALID, 0, 0, 0, 5⟩ 2
    (by decide) (by decide)

/-- C5: for every record and every index `i ≥ 8`, both `setDirtyBit(i)` and
`resetDirtyBit(i)` leave the dirty-word mask equal to zero, whatever it was
before (and leave every other member as it was). -/
theorem CacheBlockInfo.dirtyBit_index_out_of_range_clears_mask (self : CacheBlockInfo)
    (i : Nat) (hi : 8 ≤ i) :
    (self.setDirtyBit i).m_dirtyWord = 0 ∧ (self.resetDirtyBit i).m_dirtyWord = 0 ∧
      self.setDirtyBit i = { self with m_dirtyWord := 0 } ∧
      self.resetDirtyBit i = { self with m_dirtyWord := 0 } := by
  obtain ⟨n, rfl⟩ := Nat.exists_eq_add_of_le hi
  have hn : 8 + n = n + 8 := Nat.add_comm 8 n
  rw [hn]
  exact ⟨rfl, rfl, rfl, rfl⟩

/-- Witness of C5: index 8 on a record whose dirty mask is `0xff`. -/
theorem CacheBlockInfo.dirtyBit_index_out_of_range_clears_mask_witness :
    ((CacheBlockInfo.mk 3 (cstate_t.state 1) 0 0 0 255).setDirtyBit 8).m_dirtyWord = 0 ∧
      ((CacheBlockInfo.mk 3 (cstate_t.state 1) 0 0 0 255).resetDirtyBit 8).m_dirtyWord = 0 ∧
      (CacheBlockInfo.mk 3 (cstate_t.state 1) 0 0 0 255).setDirtyBit 8 =
        { CacheBlockInfo.mk 3 (cstate_t.state 1) 0 0 0 255 with m_dirtyWord := 0 } ∧
      (CacheBlockInfo.mk 3 (cstate_t.state 1) 0 0 0 255).resetDirtyBit 8 =
        { CacheBlockInfo.mk 3 (cstate_t.state 1) 0 0 0 255 with m_dirtyWord := 0 } :=
  CacheBlockInfo.dirtyBit_index_out_of_range_clears_mask ⟨3, cstate_t.state 1, 0, 0, 0, 255⟩ 8
    (by decide)

/-- C6: for every record with an 8-bit dirty-word mask `m` and every `i` in `[0,8)`,
`setDirtyBit(i)` yields the mask `m OR 2^i` and `resetDirtyBit(i)` the mask
`m AND NOT 2^i` (complement taken on 8 bits): bit `i` is set, respectively
cleared, every other bit keeps its value, and tag, coherence state, owner, usage
mask and options are unchanged. -/
theorem CacheBlockInfo.dirtyBit_set_and_reset_spec (self : CacheBlockInfo) (i : Nat)
    (hi : i < 8) (hm : self.m_dirtyWord < 2 ^ 8) :
    (self.setDirtyBit i = { self with m_dirtyWord := self.m_dirtyWord ||| 2 ^ i } ∧
      (self.setDirtyBit i).m_dirtyWord.testBit i = true ∧
      ∀ k, k ≠ i →
        (self.setDirtyBit i).m_dirtyWord.testBit k = self.m_dirtyWord.testBit k) ∧
    (self.resetDirtyBit i =
        { self with m_dirtyWord := self.m_dirtyWord &&& bitNot 8 (2 ^ i) } ∧
      (self.resetDirtyBit i).m_dirtyWord.testBit i = false ∧
      ∀ k, k ≠ i →
        (self.resetDirtyBit i).m_dirtyWord.testBit k = self.m_dirtyWord.testBit k) := by
  have hset : self.setDirtyBit i = { self with m_dirtyWord := self.m_dirtyWord ||| 2 ^ i } := by
    rw [setDirtyBit_eq self i hi,
      Nat.mod_eq_of_lt (Nat.or_lt_two_pow hm (two_pow_lt_256 i hi))]
  have hreset : self.resetDirtyBit i =
      { self with m_dirtyWord := self.m_dirtyWord &&& bitNot 8 (2 ^ i) } := by
    rw [resetDirtyBit_eq self i hi, Nat.mod_eq_of_lt (lt_of_le_of_lt Nat.and_le_left hm)]
  refine ⟨⟨hset, ?_, ?_⟩, ⟨hreset, ?_, ?_⟩⟩
  · rw [hset]
    simp [Nat.testBit_two_pow]
  · intro k hk
    rw [hset]
    simp [Nat.testBit_two_pow, Ne.symm hk]
  · rw [hreset]
    simp [testBit_clearBit _ i i hi hm]
  · intro k hk
    rw [hreset]
    simp [testBit_clearBit _ i k hi hm, Ne.symm hk]

/-- Witness of C6: mask `0b00000101`, index 1. -/
theorem CacheBlockInfo.dirtyBit_set_and_reset_spec_witness :
    ((CacheBlockInfo.mk 3 (cstate_t.state 1) 2 9 1 5).setDirtyBit 1 =
        { CacheBlockInfo.mk 3 (cstate_t.state 1) 2 9 1 5 with
          m_dirtyWord := (CacheBlockInfo.mk 3 (cstate_t.state 1) 2 9 1 5).m_dirtyWord ||| 2 ^ 1 } ∧
      ((CacheBlockInfo.mk 3 (cstate_t.state 1) 2 9 1 5).setDirtyBit 1).m_dirtyWord.testBit 1 =
        true ∧
      ∀ k, k ≠ 1 →
        ((CacheBlockInfo.mk 3 (cstate_t.state 1) 2 9 1 5).setDirtyBit 1).m_dirtyWord.testBit k =
          (CacheBlockInfo.mk 3 (cstate_t.state 1) 2 9 1 5).m_dirtyWord.testBit k) ∧
    ((CacheBlockInfo.mk 3 (cstate_t.state 1) 2 9 1 5).resetDirtyBit 1 =
        { CacheBlockInfo.mk 3 (cstate_t.state 1) 2 9 1 5 with
          m_dirtyWord := (CacheBlockInfo.mk 3 (cstate_t.state 1) 2 9 1 5).m_dirtyWord &&&
            bitNot 8 (2 ^ 1) } ∧
      ((CacheBlockInfo.mk 3 (cstate_t.state 1) 2 9 1 5).resetDirtyBit 1).m_dirtyWord.testBit 1 =
        false ∧
      ∀ k, k ≠ 1 →
        ((CacheBlockInfo.mk 3 (cstate_t.state 1) 2 9 1 5).resetDirtyBit 1).m_dirtyWord.testBit k =
          (CacheBlockInfo.mk 3 (cstate_t.state 1) 2 9 1 5).m_dirtyWord.testBit k) :=
  CacheBlockInfo.dirtyBit_set_and_reset_spec ⟨3, cstate_t.state 1, 2, 9, 1, 5⟩ 1
    (by decide) (by decide)

/-! ## Invalidation and cloning -/

theorem toUnsigned_not_zero (bits : Nat) : toUnsigned bits (~~~ (0 : Int)) = 2 ^ bits - 1 := by
  have hnot : (~~~ (0 : Int)) = -1 := rfl
  have hmod : (-1 : Int) % 2 ^ bits = 2 ^ bits - 1 := by
    have hpos : (0 : Int) < 2 ^ bits := by positivity
    have hshift := Int.add_mul_emod_self (a := -1) (b := 1) (c := 2 ^ bits)
    rw [← hshift, Int.emod_eq_of_lt] <;> omega
  have hcast : ((2 : Int) ^ bits - 1) = ((2 ^ bits - 1 : Nat) : Int) := by
    have hone : 1 ≤ 2 ^ bits := Nat.one_le_two_pow
    push_cast [Nat.cast_sub hone]
    rfl
  unfold toUnsigned
  rw [hnot, hmod, hcast, Int.toNat_ofNat]

/-- C7: for every record, `invalidate()` sets the tag to the all-ones value of the
address width (`2^ptrBits - 1`, every one of the `ptrBits` bits set) and the
coherence state to `INVALID`, and leaves owner, usage mask, dirty-word mask and
options exactly as they were. -/
theorem CacheBlockInfo.invalidate_spec (ptrBits : Nat) (self : CacheBlockInfo) :
    (self.invalidate ptrBits).m_tag = 2 ^ ptrBits - 1 ∧
      (∀ k, (self.invalidate ptrBits).m_tag.testBit k = decide (k < ptrBits)) ∧
      (self.invalidate ptrBits).m_cstate = cstate_t.INVALID ∧
      (self.invalidate ptrBits).m_owner = self.m_owner ∧
      (self.invalidate ptrBits).m_used = self.m_used ∧
      (self.invalidate ptrBits).m_dirtyWord = self.m_dirtyWord ∧
      (self.invalidate ptrBits).m_options = self.m_options := by
  have htag : (self.invalidate ptrBits).m_tag = 2 ^ ptrBits - 1 :=
    toUnsigned_not_zero ptrBits
  refine ⟨htag, ?_, rfl, rfl, rfl, rfl, rfl⟩
  intro k
  rw [htag, Nat.testBit_two_pow_sub_one]

/-- C8: for every store of records and every pair of record addresses, after
`this->clone(source)` the record at `this` has the tag, coherence state, owner,
usage mask, dirty-word mask and options of the record that was at `source`, the
record at `source` is unchanged, and so is every record other than `this`. -/
theorem CacheBlockInfo.clone_spec (store : BlockStore) (this source : Nat) :
    ((CacheBlockInfo.clone store this source) this).m_tag = (store source).m_tag ∧
      ((CacheBlockInfo.clone store this source) this).m_cstate = (store source).m_cstate ∧
      ((CacheBlockInfo.clone store this source) this).m_owner = (store source).m_owner ∧
      ((CacheBlockInfo.clone store this source) this).m_used = (store source).m_used ∧
      ((CacheBlockInfo.clone store this source) this).m_dirtyWord =
        (store source).m_dirtyWord ∧
      ((CacheBlockInfo.clone store this source) this).m_options = (store source).m_options ∧
      (CacheBlockInfo.clone store this source) source = store source ∧
      ∀ other, other ≠ this → (CacheBlockInfo.clone store this source) other = store other := by
  have hthis : (CacheBlockInfo.clone store this source) this = store source := by
    by_cases h : source = this
    · subst h
      simp [CacheBlockInfo.clone]
    · simp [CacheBlockInfo.clone, Function.update, h]
  have hother : ∀ other, other ≠ this →
      (CacheBlockInfo.clone store this source) other = store other := by
    intro other hne
    simp [CacheBlockInfo.clone, Function.update, hne]
  refine ⟨?_, ?_, ?_, ?_, ?_, ?_, ?_, hother⟩
  any_goals rw [hthis]
  by_cases h : source = this
  · subst h
    exact hthis
  · exact hother source h

/-! ## Access and hit counters -/

theorem call_of_disabled (self : Cache) (c : Cache.CounterCall)
    (hoff : self.m_enabled = false) : self.call c = self := by
  cases c <;> simp [Cache.call, Cache.updateCounters, Cache.updateHits, hoff]

theorem run_of_disabled (calls : List Cache.CounterCall) (self : Cache)
    (hoff : self.m_enabled = false) : self.run calls = self := by
  induction calls with
  | nil => rfl
  | cons c rest ih =>
    show (self.call c).run rest = self
    rw [call_of_disabled self c hoff]
    exact ih

/-- C9: with the cache disabled, every sequence of `updateCounters(hit)` and
`updateHits(kind, count)` calls with arbitrary arguments leaves the access
counter and the hit counter (indeed the whole counter state) as they were. -/
theorem Cache.disabled_counters_unchanged (self : Cache) (calls : List Cache.CounterCall)
    (hoff : self.m_enabled = false) :
    (self.run calls).m_num_accesses = self.m_num_accesses ∧
      (self.run calls).m_num_hits = self.m_num_hits ∧
      self.run calls = self := by
  rw [run_of_disabled calls self hoff]
  exact ⟨rfl, rfl, rfl⟩

/-- Witness of C9: a disabled cache with counters 10 and 4. -/
theorem Cache.disabled_counters_unchanged_witness :
    ((Cache.mk false 10 4).run
        [Cache.CounterCall.updateCounters true, Cache.CounterCall.updateHits 1 7,
          Cache.CounterCall.updateCounters false]).m_num_accesses =
        (Cache.mk false 10 4).m_num_accesses ∧
      ((Cache.mk false 10 4).run
        [Cache.CounterCall.updateCounters true, Cache.CounterCall.updateHits 1 7,
          Cache.CounterCall.updateCounters false]).m_num_hits =
        (Cache.mk false 10 4).m_num_hits ∧
      (Cache.mk false 10 4).run
        [Cache.CounterCall.updateCounters true, Cache.CounterCall.updateHits 1 7,
          Cache.CounterCall.updateCounters false] = Cache.mk false 10 4 :=
  Cache.disabled_counters_unchanged (Cache.mk false 10 4)
    [Cache.CounterCall.updateCounters true, Cache.CounterCall.updateHits 1 7,
      Cache.CounterCall.updateCounters false] rfl

theorem call_of_enabled (self : Cache) (c : Cache.CounterCall)
    (hon : self.m_enabled = true) (hle : self.m_num_hits ≤ self.m_num_accesses)
    (hroom : self.m_num_accesses + Cache.reported [c] < 2 ^ 64) :
    (self.call c).m_enabled = true ∧
      (self.call c).m_num_hits ≤ (self.call c).m_num_accesses ∧
      (self.call c).m_num_accesses = self.m_num_accesses + Cache.reported [c] := by
  cases c with
  | updateCounters cache_hit =>
    simp only [Cache.reported, Nat.add_zero] at hroom
    have h1 : (self.m_num_accesses + 1) % 2 ^ 64 = self.m_num_accesses + 1 :=
      Nat.mod_eq_of_lt hroom
    have h2 : (self.m_num_hits + 1) % 2 ^ 64 = self.m_num_hits + 1 :=
      Nat.mod_eq_of_lt (by omega)
    cases cache_hit <;>
      simp [Cache.call, Cache.updateCounters, Cache.reported, hon, h1, h2] <;> omega
  | updateHits mem_op_type hits =>
    simp only [Cache.reported, Nat.add_zero] at hroom
    have h1 : (self.m_num_accesses + hits) % 2 ^ 64 = self.m_num_accesses + hits :=
      Nat.mod_eq_of_lt hroom
    have h2 : (self.m_num_hits + hits) % 2 ^ 64 = self.m_num_hits + hits :=
      Nat.mod_eq_of_lt (by omega)
    simp [Cache.call, Cache.updateHits, Cache.reported, hon, h1, h2]
    omega

theorem reported_cons (c : Cache.CounterCall) (rest : List Cache.CounterCall) :
    Cache.reported (c :: rest) = Cache.reported [c] + Cache.reported rest := by
  cases c <;> simp [Cache.reported]

theorem run_of_enabled (calls : List Cache.CounterCall) (self : Cache)
    (hon : self.m_enabled = true) (hle : self.m_num_hits ≤ self.m_num_accesses)
    (hroom : self.m_num_accesses + Cache.reported calls < 2 ^ 64) :
    (self.run calls).m_num_hits ≤ (self.run calls).m_num_accesses ∧
      (self.run calls).m_num_accesses = self.m_num_accesses + Cache.reported calls := by
  induction calls generalizing self with
  | nil => exact ⟨hle, rfl⟩
  | cons c rest ih =>
    rw [reported_cons] at hroom ⊢
    obtain ⟨hon1, hle1, hacc1⟩ := call_of_enabled self c hon hle (by omega)
    obtain ⟨hle2, hacc2⟩ := ih (self.call c) hon1 hle1 (by omega)
    have hrun : self.run (c :: rest) = (self.call c).run rest := rfl
    rw [hrun]
    exact ⟨hle2, by omega⟩

/-- C10, as stated, fails: on a freshly constructed, enabled cache the calls
`updateCounters(false)` and `updateHits(kind, 2^64 - 1)` wrap the access counter
to 0 while the hit counter is `2^64 - 1`. -/
theorem Cache.hits_exceed_accesses_after_wraparound :
    (({ Cache.init with m_enabled := true }).run
        [Cache.CounterCall.updateCounters false,
          Cache.CounterCall.updateHits 0 (2 ^ 64 - 1)]).m_num_accesses = 0 ∧
      (({ Cache.init with m_enabled := true }).run
        [Cache.CounterCall.updateCounters false,
          Cache.CounterCall.updateHits 0 (2 ^ 64 - 1)]).m_num_hits = 2 ^ 64 - 1 ∧
      ¬ (({ Cache.init with m_enabled := true }).run
          [Cache.CounterCall.updateCounters false,
            Cache.CounterCall.updateHits 0 (2 ^ 64 - 1)]).m_num_hits ≤
        (({ Cache.init with m_enabled := true }).run
          [Cache.CounterCall.updateCounters false,
            Cache.CounterCall.updateHits 0 (2 ^ 64 - 1)]).m_num_accesses := by
  decide

/-- C10, amended: starting from a freshly constructed cache (accesses = 0,
hits = 0) that is enabled, after every sequence of `updateCounters(hit)` and
`updateHits(kind, count)` calls that reports fewer than `2^64` accesses in total
(one per `updateCounters` call plus the counts of the `updateHits` calls), the
counters satisfy `hits ≤ accesses`, and `accesses` is that total. -/
theorem Cache.hits_le_accesses_without_wraparound (calls : List Cache.CounterCall)
    (hroom : Cache.reported calls < 2 ^ 64) :
    (({ Cache.init with m_enabled := true }).run calls).m_num_hits ≤
        (({ Cache.init with m_enabled := true }).run calls).m_num_accesses ∧
      (({ Cache.init with m_enabled := true }).run calls).m_num_accesses =
        Cache.reported calls := by
  have h := run_of_enabled calls { Cache.init with m_enabled := true } rfl
    (Nat.le_refl 0) (by simpa [Cache.init] using hroom)
  refine ⟨h.1, ?_⟩
  rw [h.2]
  simp [Cache.init]

/-- Witness of the amended C10: a hit, a miss and a batch of five hits. -/
theorem Cache.hits_le_accesses_without_wraparound_witness :
    (({ Cache.init with m_enabled := true }).run
        [Cache.CounterCall.updateCounters true, Cache.CounterCall.updateCounters false,
          Cache.CounterCall.updateHits 0 5]).m_num_hits ≤
        (({ Cache.init with m_enabled := true }).run
          [Cache.CounterCall.updateCounters true, Cache.CounterCall.updateCounters false,
            Cache.CounterCall.updateHits 0 5]).m_num_accesses ∧
      (({ Cache.init with m_enabled := true }).run
        [Cache.CounterCall.updateCounters true, Cache.CounterCall.updateCounters false,
          Cache.CounterCall.updateHits 0 5]).m_num_accesses =
        Cache.reported
          [Cache.CounterCall.updateCounters true, Cache.CounterCall.updateCounters false,
            Cache.CounterCall.updateHits 0 5] :=
  Cache.hits_le_accesses_without_wraparound
    [Cache.CounterCall.updateCounters true, Cache.CounterCall.updateCounters false,
      Cache.CounterCall.updateHits 0 5] (by decide)

/-! ## Promotion counters and line swap -/

theorem range_four : List.range 4 = [0, 1, 2, 3] := by decide

/-- What the fast-tier scan has established after looking at the slots below `k`. -/
theorem scan_step (m_LSC : Nat → Nat) (c s k : Nat) (st : Nat × Nat)
    (hinv : (st = (c, s) ∧ ∀ j, j < k → c ≤ m_LSC j) ∨
      (st.2 < k ∧ st.1 = m_LSC st.2 ∧ m_LSC st.2 < c ∧ (∀ j, j < k → m_LSC st.2 ≤ m_LSC j) ∧
        ∀ j, j < st.2 → m_LSC st.2 < m_LSC j)) :
    ((if m_LSC k < st.1 then (m_LSC k, k) else st) = (c, s) ∧ ∀ j, j < k + 1 → c ≤ m_LSC j) ∨
      ((if m_LSC k < st.1 then (m_LSC k, k) else st).2 < k + 1 ∧
        (if m_LSC k < st.1 then (m_LSC k, k) else st).1 =
          m_LSC (if m_LSC k < st.1 then (m_LSC k, k) else st).2 ∧
        m_LSC (if m_LSC k < st.1 then (m_LSC k, k) else st).2 < c ∧
        (∀ j, j < k + 1 →
          m_LSC (if m_LSC k < st.1 then (m_LSC k, k) else st).2 ≤ m_LSC j) ∧
        ∀ j, j < (if m_LSC k < st.1 then (m_LSC k, k) else st).2 →
          m_LSC (if m_LSC k < st.1 then (m_LSC k, k) else st).2 < m_LSC j) := by
  have hlast : ∀ j, j < k + 1 → j < k ∨ j = k := by intro j hj; omega
  rcases hinv with ⟨hst, hall⟩ | ⟨hp, hv, hlt, hmin, hfirst⟩
  · subst hst
    by_cases hk : m_LSC k < c
    · right
      rw [if_pos hk]
      dsimp only
      refine ⟨by omega, rfl, hk, ?_, ?_⟩
      · intro j hj
        rcases hlast j hj with h | h
        · have := hall j h
          omega
        · subst h
          exact Nat.le_refl _
      · intro j hj
        have := hall j hj
        omega
    · left
      rw [if_neg hk]
      refine ⟨rfl, ?_⟩
      intro j hj
      rcases hlast j hj with h | h
      · exact hall j h
      · subst h
        omega
  · right
    by_cases hk : m_LSC k < st.1
    · rw [if_pos hk]
      dsimp only
      refine ⟨by omega, rfl, by omega, ?_, ?_⟩
      · intro j hj
        rcases hlast j hj with h | h
        · have := hmin j h
          omega
        · subst h
          exact Nat.le_refl _
      · intro j hj
        have := hmin j hj
        omega
    · rw [if_neg hk]
      refine ⟨by omega, hv, hlt, ?_, hfirst⟩
      intro j hj
      rcases hlast j hj with h | h
      · exact hmin j h
      · subst h
        omega

theorem scanFastTier_inv (m_LSC : Nat → Nat) (c s : Nat) :
    (Cache.scanFastTier m_LSC c s = (c, s) ∧ ∀ j, j < 4 → c ≤ m_LSC j) ∨
      ((Cache.scanFastTier m_LSC c s).2 < 4 ∧
        (Cache.scanFastTier m_LSC c s).1 = m_LSC (Cache.scanFastTier m_LSC c s).2 ∧
        m_LSC (Cache.scanFastTier m_LSC c s).2 < c ∧
        (∀ j, j < 4 → m_LSC (Cache.scanFastTier m_LSC c s).2 ≤ m_LSC j) ∧
        ∀ j, j < (Cache.scanFastTier m_LSC c s).2 →
          m_LSC (Cache.scanFastTier m_LSC c s).2 < m_LSC j) := by
  have h0 : ((c, s) = (c, s) ∧ ∀ j, j < 0 → c ≤ m_LSC j) ∨
      ((c, s).2 < 0 ∧ (c, s).1 = m_LSC (c, s).2 ∧ m_LSC (c, s).2 < c ∧
        (∀ j, j < 0 → m_LSC (c, s).2 ≤ m_LSC j) ∧
        ∀ j, j < (c, s).2 → m_LSC (c, s).2 < m_LSC j) :=
    Or.inl ⟨rfl, fun j hj => absurd hj (Nat.not_lt_zero j)⟩
  have h1 := scan_step m_LSC c s 0 _ h0
  have h2 := scan_step m_LSC c s 1 _ h1
  have h3 := scan_step m_LSC c s 2 _ h2
  have h4 := scan_step m_LSC c s 3 _ h3
  simpa only [Cache.scanFastTier, range_four, List.foldl] using h4

theorem scanFastTier_none (m_LSC : Nat → Nat) (c s : Nat)
    (hall : ∀ i, i < 4 → c ≤ m_LSC i) : Cache.scanFastTier m_LSC c s = (c, s) := by
  rcases scanFastTier_inv m_LSC c s with ⟨h, _⟩ | ⟨hp, _, hlt, _, _⟩
  · exact h
  · have := hall _ hp
    omega

theorem scanFastTier_some (m_LSC : Nat → Nat) (c s : Nat)
    (hex : ∃ i, i < 4 ∧ m_LSC i < c) :
    (Cache.scanFastTier m_LSC c s).2 < 4 ∧
      m_LSC (Cache.scanFastTier m_LSC c s).2 < c ∧
      (∀ j, j < 4 → m_LSC (Cache.scanFastTier m_LSC c s).2 ≤ m_LSC j) ∧
      (∀ j, j < (Cache.scanFastTier m_LSC c s).2 →
        m_LSC (Cache.scanFastTier m_LSC c s).2 < m_LSC j) := by
  obtain ⟨i, hi, hlt⟩ := hex
  rcases scanFastTier_inv m_LSC c s with ⟨_, hall⟩ | ⟨hp, _, hlt2, hmin, hfirst⟩
  · have := hall i hi
    omega
  · exact ⟨hp, hlt2, hmin, hfirst⟩

theorem resetLoop_apply (n : Nat) (m_LSC : Nat → Nat) (i : Nat) :
    ((List.range n).foldl (fun m i => Function.update m i 0) m_LSC) i =
      if i < n then 0 else m_LSC i := by
  induction n with
  | zero => simp
  | succ n ih =>
    rw [List.range_succ, List.foldl_append]
    simp only [List.foldl]
    by_cases h : i = n
    · subst h
      simp
    · rw [Function.update_noteq h, ih]
      by_cases h2 : i < n
      · simp [h2, Nat.lt_succ_of_lt h2]
      · have h3 : ¬ i < n + 1 := by omega
        simp [h2, h3]

theorem resetLSC_apply (m_LSC : Nat → Nat) (i : Nat) :
    Cache.resetLSC m_LSC i = if i < 16 then 0 else m_LSC i :=
  resetLoop_apply 16 m_LSC i

theorem foldlM_option_inv {σ α : Type} (step : σ → α → Option σ) (P : Nat → σ → Prop) :
    ∀ (l : List α) (k0 : Nat) (st : σ),
      (∀ k (hk : k < l.length) (st : σ), P (k0 + k) st →
        ∃ st', step st (l.get ⟨k, hk⟩) = some st' ∧ P (k0 + k + 1) st') →
      P k0 st → ∃ st', l.foldlM step st = some st' ∧ P (k0 + l.length) st' := by
  intro l
  induction l with
  | nil =>
    intro k0 st _ h0
    exact ⟨st, rfl, h0⟩
  | cons a rest ih =>
    intro k0 st hstep h0
    obtain ⟨st1, hst1, hP1⟩ := hstep 0 (Nat.succ_pos _) st h0
    have hrest : ∀ k (hk : k < rest.length) (st : σ), P (k0 + 1 + k) st →
        ∃ st', step st (rest.get ⟨k, hk⟩) = some st' ∧ P (k0 + 1 + k + 1) st' := by
      intro k hk st hP
      have hP2 : P (k0 + (k + 1)) st := by
        have heq : k0 + (k + 1) = k0 + 1 + k := by omega
        rw [heq]
        exact hP
      obtain ⟨st2, hst2, hP3⟩ := hstep (k + 1) (Nat.succ_lt_succ hk) st hP2
      refine ⟨st2, hst2, ?_⟩
      have heq : k0 + 1 + k + 1 = k0 + (k + 1) + 1 := by omega
      rw [heq]
      exact hP3
    obtain ⟨st3, hst3, hP4⟩ := ih (k0 + 1) st1 hrest hP1
    refine ⟨st3, ?_, ?_⟩
    · rw [List.foldlM_cons]
      simp only [List.get] at hst1
      rw [hst1]
      exact hst3
    · have heq : k0 + (a :: rest).length = k0 + 1 + rest.length := by
        simp only [List.length_cons]
        omega
      rw [heq]
      exact hP4

theorem swapChunk_eq (out1 out2 line1 line2 bytes : Nat) (st : CacheSet × ByteMemory)
    (offset : Nat) (h1 : line1 < st.1.m_associativity) (h2 : line2 < st.1.m_associativity)
    (hoff : offset + bytes ≤ st.1.m_blocksize) :
    ∃ mem2 : ByteMemory,
      (∀ a, out2 ≤ a → a < out2 + bytes →
        mem2 a = st.1.m_blocks line2 (offset + (a - out2))) ∧
      (∀ a, ¬ (out2 ≤ a ∧ a < out2 + bytes) → out1 ≤ a → a < out1 + bytes →
        mem2 a = st.1.m_blocks line1 (offset + (a - out1))) ∧
      Cache.swapChunk out1 out2 line1 line2 bytes st offset =
        some ({ st.1 with
          m_blocks := fun l o =>
            if l = line2 ∧ offset ≤ o ∧ o < offset + bytes then mem2 (out1 + (o - offset))
            else if l = line1 ∧ offset ≤ o ∧ o < offset + bytes then mem2 (out2 + (o - offset))
            else st.1.m_blocks l o }, mem2) := by
  refine ⟨fun a =>
      if out2 ≤ a ∧ a < out2 + bytes then st.1.m_blocks line2 (offset + (a - out2))
      else if out1 ≤ a ∧ a < out1 + bytes then st.1.m_blocks line1 (offset + (a - out1))
      else st.2 a, ?_, ?_, ?_⟩
  · intro a ha1 ha2
    simp only [ha1, ha2, and_self, if_true]
  · intro a hna ha1 ha2
    simp only [hna, ha1, ha2, and_self, if_true, if_false]
  · simp only [Cache.swapChunk, CacheSet.read_line, CacheSet.write_line, h1, h2, hoff,
      and_self, if_true, Option.bind_eq_bind, Option.some_bind]

theorem swapOffsets_length : Cache.swapOffsets.length = 8 := by decide

theorem swapOffsets_get (k : Nat) (hk : k < Cache.swapOffsets.length) :
    Cache.swapOffsets.get ⟨k, hk⟩ = 8 * k := by
  simp [Cache.swapOffsets]

/-- State of the swap loop after `k` chunks, relative to the set `cs` it started from:
only the data of the two lines below offset `8 * k` has changed, and with separate
buffers that data has been exchanged. -/
theorem swapLoop_inv (out1 out2 line1 line2 : Nat) (cs : CacheSet) (mem : ByteMemory)
    (h1 : line1 < cs.m_associativity) (h2 : line2 < cs.m_associativity)
    (hbs : 64 ≤ cs.m_blocksize) :
    ∃ st', Cache.swapOffsets.foldlM (Cache.swapChunk out1 out2 line1 line2 8) (cs, mem) =
        some st' ∧
      st'.1.m_associativity = cs.m_associativity ∧ st'.1.m_blocksize = cs.m_blocksize ∧
      st'.1.m_cache_block_info_array = cs.m_cache_block_info_array ∧
      st'.1.m_LSC = cs.m_LSC ∧
      (∀ l o, (l ≠ line1 ∧ l ≠ line2) ∨ 64 ≤ o → st'.1.m_blocks l o = cs.m_blocks l o) ∧
      ((out1 + 8 ≤ out2 ∨ out2 + 8 ≤ out1) → line1 ≠ line2 → ∀ o, o < 64 →
        st'.1.m_blocks line1 o = cs.m_blocks line2 o ∧
          st'.1.m_blocks line2 o = cs.m_blocks line1 o) := by
  have hmain := foldlM_option_inv (Cache.swapChunk out1 out2 line1 line2 8)
    (fun k (st : CacheSet × ByteMemory) =>
      st.1.m_associativity = cs.m_associativity ∧ st.1.m_blocksize = cs.m_blocksize ∧
      st.1.m_cache_block_info_array = cs.m_cache_block_info_array ∧
      st.1.m_LSC = cs.m_LSC ∧
      (∀ l o, (l ≠ line1 ∧ l ≠ line2) ∨ 8 * k ≤ o → st.1.m_blocks l o = cs.m_blocks l o) ∧
      ((out1 + 8 ≤ out2 ∨ out2 + 8 ≤ out1) → line1 ≠ line2 → ∀ o, o < 8 * k →
        st.1.m_blocks line1 o = cs.m_blocks line2 o ∧
          st.1.m_blocks line2 o = cs.m_blocks line1 o))
    Cache.swapOffsets 0 (cs, mem) ?_ ?_
  · obtain ⟨st', hrun, hP⟩ := hmain
    rw [swapOffsets_length] at hP
    exact ⟨st', hrun, hP⟩
  · intro k hk st hP
    have hk8 : k < 8 := by rw [swapOffsets_length] at hk; exact hk
    simp only [Nat.zero_add] at hP ⊢
    obtain ⟨hassoc, hbsz, hinfo, hlsc, hframe, hexch⟩ := hP
    obtain ⟨mem2, hmem2, hmem1, heq⟩ := swapChunk_eq out1 out2 line1 line2 8 st (8 * k)
      (by rw [hassoc]; exact h1) (by rw [hassoc]; exact h2) (by rw [hbsz]; omega)
    rw [swapOffsets_get k hk, heq]
    refine ⟨_, rfl, hassoc, hbsz, hinfo, hlsc, ?_, ?_⟩
    · intro l o hlo
      have hc2 : ¬ (l = line2 ∧ 8 * k ≤ o ∧ o < 8 * k + 8) := by
        rintro ⟨hl, ho1, ho2⟩
        rcases hlo with ⟨_, hne⟩ | ho
        · exact hne hl
        · omega
      have hc1 : ¬ (l = line1 ∧ 8 * k ≤ o ∧ o < 8 * k + 8) := by
        rintro ⟨hl, ho1, ho2⟩
        rcases hlo with ⟨hne, _⟩ | ho
        · exact hne hl
        · omega
      simp only [hc1, hc2, if_false]
      apply hframe
      rcases hlo with h | h
      · exact Or.inl h
      · exact Or.inr (by omega)
    · intro hdis hne o ho
      by_cases hin : 8 * k ≤ o
      · have ho2 : o < 8 * k + 8 := by omega
        have hne12 : ¬ (line1 = line2) := hne
        simp only [hne12, hin, ho2, and_self, and_true, true_and, if_true, if_false]
        constructor
        · rw [hmem2 _ (by omega) (by omega)]
          have harg : 8 * k + (out2 + (o - 8 * k) - out2) = o := by omega
          rw [harg]
          exact hframe line2 o (Or.inr hin)
        · rw [hmem1 _ (by omega) (by omega) (by omega)]
          have harg : 8 * k + (out1 + (o - 8 * k) - out1) = o := by omega
          rw [harg]
          exact hframe line1 o (Or.inr hin)
      · have hlt : o < 8 * k := by omega
        simp only [hin, false_and, and_false, if_false]
        exact hexch hdis hne o hlt
  · refine ⟨rfl, rfl, rfl, rfl, fun l o _ => rfl, ?_⟩
    intro _ _ o ho
    omega

theorem swapLines_spec (cs : CacheSet) (mem : ByteMemory) (out1 out2 line1 line2 : Nat)
    (h1 : line1 < cs.m_associativity) (h2 : line2 < cs.m_associativity)
    (hbs : 64 ≤ cs.m_blocksize) :
    ∃ st', Cache.swapLines cs mem out1 out2 line1 line2 = some st' ∧
      st'.1.m_associativity = cs.m_associativity ∧ st'.1.m_blocksize = cs.m_blocksize ∧
      st'.1.m_cache_block_info_array =
        Function.update
          (Function.update cs.m_cache_block_info_array line1 (cs.m_cache_block_info_array line2))
          line2 (cs.m_cache_block_info_array line1) ∧
      st'.1.m_LSC = cs.m_LSC ∧
      (∀ l o, (l ≠ line1 ∧ l ≠ line2) ∨ 64 ≤ o → st'.1.m_blocks l o = cs.m_blocks l o) ∧
      ((out1 + 8 ≤ out2 ∨ out2 + 8 ≤ out1) → line1 ≠ line2 → ∀ o, o < 64 →
        st'.1.m_blocks line1 o = cs.m_blocks line2 o ∧
          st'.1.m_blocks line2 o = cs.m_blocks line1 o) := by
  obtain ⟨st, hrun, hassoc, hbsz, hinfo, hlsc, hframe, hexch⟩ :=
    swapLoop_inv out1 out2 line1 line2 cs mem h1 h2 hbs
  refine ⟨({ st.1 with
      m_cache_block_info_array :=
        Function.update
          (Function.update st.1.m_cache_block_info_array line1
            (st.1.m_cache_block_info_array line2))
          line2 (st.1.m_cache_block_info_array line1) }, st.2),
    ?_, hassoc, hbsz, ?_, hlsc, hframe, hexch⟩
  · simp only [Cache.swapLines, hrun, Option.bind_eq_bind, Option.some_bind]
  · simp only [hinfo]

theorem sentinel_eq : toUnsigned 32 (-1) = 2 ^ 32 - 1 := toUnsigned_not_zero 32

/-- The call `updateLSC(setNum, lineNum)` when no promotion is attempted. -/
theorem updateLSC_no_trigger (self : CacheSets) (mem : ByteMemory)
    (out1 out2 setNum lineNum : Nat)
    (hset : setNum < self.m_num_sets) (hline : lineNum < 16)
    (hno : lineNum < 4 ∨ ((self.m_sets setNum).m_LSC lineNum + 1) % 2 ^ 32 < 3) :
    Cache.updateLSC self mem out1 out2 setNum lineNum =
      some ({ self with
        m_sets := Function.update self.m_sets setNum
          { self.m_sets setNum with
            m_LSC := Function.update (self.m_sets setNum).m_LSC lineNum
              (((self.m_sets setNum).m_LSC lineNum + 1) % 2 ^ 32) } }, mem) := by
  by_cases hslow : lineNum ≥ 4
  · have hlow : ¬ (((self.m_sets setNum).m_LSC lineNum + 1) % 2 ^ 32 ≥ 3) := by omega
    simp only [Cache.updateLSC, hset, hline, and_self, if_true, hslow,
      Function.update_same, hlow, if_false]
  · simp only [Cache.updateLSC, hset, hline, and_self, if_true, hslow, if_false]

/-- The call `updateLSC(setNum, lineNum)` when the promotion threshold is reached and
no fast-tier counter is below the counter of the line. -/
theorem updateLSC_trigger_no_partner (self : CacheSets) (mem : ByteMemory)
    (out1 out2 setNum lineNum : Nat)
    (hset : setNum < self.m_num_sets) (hline : lineNum < 16) (hslow : 4 ≤ lineNum)
    (htrig : 3 ≤ ((self.m_sets setNum).m_LSC lineNum + 1) % 2 ^ 32)
    (hall : ∀ i, i < 4 →
      ((self.m_sets setNum).m_LSC lineNum + 1) % 2 ^ 32 ≤ (self.m_sets setNum).m_LSC i) :
    Cache.updateLSC self mem out1 out2 setNum lineNum =
      some ({ self with
        m_sets := Function.update self.m_sets setNum
          { self.m_sets setNum with
            m_LSC := Cache.resetLSC (Function.update (self.m_sets setNum).m_LSC lineNum
              (((self.m_sets setNum).m_LSC lineNum + 1) % 2 ^ 32)) } }, mem) := by
  have hscan := scanFastTier_none
    (Function.update (self.m_sets setNum).m_LSC lineNum
      (((self.m_sets setNum).m_LSC lineNum + 1) % 2 ^ 32))
    (((self.m_sets setNum).m_LSC lineNum + 1) % 2 ^ 32) (toUnsigned 32 (-1))
    (by
      intro i hi
      rw [Function.update_noteq (by omega)]
      exact hall i hi)
  simp only [Cache.updateLSC, hset, hline, and_self, if_true, Function.update_same,
    ge_iff_le, hslow, htrig, hscan, ne_eq, not_true_eq_false, if_false, Option.bind_eq_bind,
    Option.some_bind]

/-- The call `updateLSC(setNum, lineNum)` when the promotion threshold is reached and
some fast-tier counter is below the counter of the line: the partner is the first
fast-tier slot with the least counter, and the result is that of `swapLines`
followed by the counter reset. -/
theorem updateLSC_trigger_partner (self : CacheSets) (mem : ByteMemory)
    (out1 out2 setNum lineNum : Nat)
    (hset : setNum < self.m_num_sets) (hline : lineNum < 16) (hslow : 4 ≤ lineNum)
    (htrig : 3 ≤ ((self.m_sets setNum).m_LSC lineNum + 1) % 2 ^ 32)
    (hex : ∃ i, i < 4 ∧
      (self.m_sets setNum).m_LSC i < ((self.m_sets setNum).m_LSC lineNum + 1) % 2 ^ 32) :
    ∃ p, p < 4 ∧
      (self.m_sets setNum).m_LSC p < ((self.m_sets setNum).m_LSC lineNum + 1) % 2 ^ 32 ∧
      (∀ j, j < 4 → (self.m_sets setNum).m_LSC p ≤ (self.m_sets setNum).m_LSC j) ∧
      (∀ j, j < p → (self.m_sets setNum).m_LSC p < (self.m_sets setNum).m_LSC j) ∧
      Cache.updateLSC self mem out1 out2 setNum lineNum =
        (Cache.swapLines
          { self.m_sets setNum with
            m_LSC := Function.update (self.m_sets setNum).m_LSC lineNum
              (((self.m_sets setNum).m_LSC lineNum + 1) % 2 ^ 32) }
          mem out1 out2 p lineNum).bind
          (fun st => some ({ self with
            m_sets := Function.update self.m_sets setNum
              { st.1 with m_LSC := Cache.resetLSC st.1.m_LSC } }, st.2)) := by
  have hfast : ∀ j, j < 4 →
      Function.update (self.m_sets setNum).m_LSC lineNum
        (((self.m_sets setNum).m_LSC lineNum + 1) % 2 ^ 32) j =
        (self.m_sets setNum).m_LSC j := by
    intro j hj
    rw [Function.update_noteq (by omega)]
  obtain ⟨hp, hlt, hmin, hfirst⟩ := scanFastTier_some
    (Function.update (self.m_sets setNum).m_LSC lineNum
      (((self.m_sets setNum).m_LSC lineNum + 1) % 2 ^ 32))
    (((self.m_sets setNum).m_LSC lineNum + 1) % 2 ^ 32) (toUnsigned 32 (-1))
    (by
      obtain ⟨i, hi, hlt⟩ := hex
      exact ⟨i, hi, by rw [hfast i hi]; exact hlt⟩)
  refine ⟨_, hp, ?_, ?_, ?_, ?_⟩
  · rw [← hfast _ hp]
    exact hlt
  · intro j hj
    rw [← hfast _ hp, ← hfast j hj]
    exact hmin j hj
  · intro j hj
    rw [← hfast _ hp, ← hfast j (by omega)]
    exact hfirst j hj
  · have hne : (Cache.scanFastTier
        (Function.update (self.m_sets setNum).m_LSC lineNum
          (((self.m_sets setNum).m_LSC lineNum + 1) % 2 ^ 32))
        (((self.m_sets setNum).m_LSC lineNum + 1) % 2 ^ 32) (toUnsigned 32 (-1))).2 ≠
        toUnsigned 32 (-1) := by
      intro hsent
      rw [hsent, sentinel_eq] at hp
      norm_num at hp
    simp only [Cache.updateLSC, hset, hline, and_self, if_true, Function.update_same,
      ge_iff_le, hslow, htrig, hne, ne_eq, not_false_eq_true, Option.bind_eq_bind]

/-- C11: for every set state and every defined call `updateLSC(setNum, lineNum)`
(`setNum` below the number of sets, `lineNum` among the 16 counters) in which
`lineNum < 4`, or `lineNum ≥ 4` and the line's counter after the increment is
below 3, the only change is the `UInt32` increment of the counter of `lineNum` in
that set (it goes up by one unless it wraps at `2^32`): line data, metadata slot
assignments, every other counter, every other set and the buffer memory are as
before. -/
theorem Cache.updateLSC_only_increments_counter (self : CacheSets) (mem : ByteMemory)
    (out1 out2 setNum lineNum : Nat)
    (hset : setNum < self.m_num_sets) (hline : lineNum < 16)
    (hno : lineNum < 4 ∨
      (4 ≤ lineNum ∧ ((self.m_sets setNum).m_LSC lineNum + 1) % 2 ^ 32 < 3)) :
    ∃ r, Cache.updateLSC self mem out1 out2 setNum lineNum = some r ∧
      (r.1.m_sets setNum).m_LSC lineNum = ((self.m_sets setNum).m_LSC lineNum + 1) % 2 ^ 32 ∧
      ((self.m_sets setNum).m_LSC lineNum + 1 < 2 ^ 32 →
        (r.1.m_sets setNum).m_LSC lineNum = (self.m_sets setNum).m_LSC lineNum + 1) ∧
      (∀ i, i ≠ lineNum → (r.1.m_sets setNum).m_LSC i = (self.m_sets setNum).m_LSC i) ∧
      (r.1.m_sets setNum).m_blocks = (self.m_sets setNum).m_blocks ∧
      (r.1.m_sets setNum).m_cache_block_info_array =
        (self.m_sets setNum).m_cache_block_info_array ∧
      (r.1.m_sets setNum).m_associativity = (self.m_sets setNum).m_associativity ∧
      (r.1.m_sets setNum).m_blocksize = (self.m_sets setNum).m_blocksize ∧
      (∀ s, s ≠ setNum → r.1.m_sets s = self.m_sets s) ∧
      r.1.m_num_sets = self.m_num_sets ∧ r.1.m_associativity = self.m_associativity ∧
      r.2 = mem := by
  have hcall := updateLSC_no_trigger self mem out1 out2 setNum lineNum hset hline
    (by rcases hno with h | ⟨_, h⟩
        · exact Or.inl h
        · exact Or.inr h)
  refine ⟨_, hcall, ?_, ?_, ?_, ?_, ?_, ?_, ?_, ?_, rfl, rfl, rfl⟩
  · simp only [Function.update_same]
  · intro hlt
    simp only [Function.update_same]
    exact Nat.mod_eq_of_lt hlt
  · intro i hi
    simp only [Function.update_same]
    exact Function.update_noteq hi _ _
  · simp only [Function.update_same]
  · simp only [Function.update_same]
  · simp only [Function.update_same]
  · simp only [Function.update_same]
  · intro s hs
    exact Function.update_noteq hs _ _

/-- Witness of C11: the second access to slow-tier line 4 of a sample set. -/
theorem Cache.updateLSC_only_increments_counter_witness :
    ∃ r, Cache.updateLSC (sampleSets 64 (fun i => if i = 4 then 1 else 0)) (fun _ => 0)
        0 8 0 4 = some r ∧
      (r.1.m_sets 0).m_LSC 4 =
        (((sampleSets 64 (fun i => if i = 4 then 1 else 0)).m_sets 0).m_LSC 4 + 1) % 2 ^ 32 ∧
      (((sampleSets 64 (fun i => if i = 4 then 1 else 0)).m_sets 0).m_LSC 4 + 1 < 2 ^ 32 →
        (r.1.m_sets 0).m_LSC 4 =
          ((sampleSets 64 (fun i => if i = 4 then 1 else 0)).m_sets 0).m_LSC 4 + 1) ∧
      (∀ i, i ≠ 4 → (r.1.m_sets 0).m_LSC i =
        ((sampleSets 64 (fun i => if i = 4 then 1 else 0)).m_sets 0).m_LSC i) ∧
      (r.1.m_sets 0).m_blocks =
        ((sampleSets 64 (fun i => if i = 4 then 1 else 0)).m_sets 0).m_blocks ∧
      (r.1.m_sets 0).m_cache_block_info_array =
        ((sampleSets 64 (fun i => if i = 4 then 1 else 0)).m_sets 0).m_cache_block_info_array ∧
      (r.1.m_sets 0).m_associativity =
        ((sampleSets 64 (fun i => if i = 4 then 1 else 0)).m_sets 0).m_associativity ∧
      (r.1.m_sets 0).m_blocksize =
        ((sampleSets 64 (fun i => if i = 4 then 1 else 0)).m_sets 0).m_blocksize ∧
      (∀ s, s ≠ 0 → r.1.m_sets s =
        (sampleSets 64 (fun i => if i = 4 then 1 else 0)).m_sets s) ∧
      r.1.m_num_sets = (sampleSets 64 (fun i => if i = 4 then 1 else 0)).m_num_sets ∧
      r.1.m_associativity =
        (sampleSets 64 (fun i => if i = 4 then 1 else 0)).m_associativity ∧
      r.2 = (fun _ => 0) :=
  Cache.updateLSC_only_increments_counter (sampleSets 64 (fun i => if i = 4 then 1 else 0))
    (fun _ => 0) 0 8 0 4 (by decide) (by decide) (Or.inr (by decide))

/-- Result of a call of `updateLSC` that reaches the promotion threshold, whether or
not a partner is found. -/
theorem updateLSC_trigger (self : CacheSets) (mem : ByteMemory)
    (out1 out2 setNum lineNum : Nat)
    (hset : setNum < self.m_num_sets) (hline : lineNum < 16) (hslow : 4 ≤ lineNum)
    (hassoc : lineNum < (self.m_sets setNum).m_associativity)
    (hbs : 64 ≤ (self.m_sets setNum).m_blocksize)
    (htrig : 3 ≤ ((self.m_sets setNum).m_LSC lineNum + 1) % 2 ^ 32) :
    ∃ r, Cache.updateLSC self mem out1 out2 setNum lineNum = some r ∧
      (∀ i, i < 16 → (r.1.m_sets setNum).m_LSC i = 0) ∧
      (∀ s, s ≠ setNum → r.1.m_sets s = self.m_sets s) ∧
      (r.1.m_sets setNum).m_associativity = (self.m_sets setNum).m_associativity ∧
      (r.1.m_sets setNum).m_blocksize = (self.m_sets setNum).m_blocksize ∧
      r.1.m_num_sets = self.m_num_sets ∧
      ((∀ i, i < 4 → ((self.m_sets setNum).m_LSC lineNum + 1) % 2 ^ 32 ≤
          (self.m_sets setNum).m_LSC i) →
        (r.1.m_sets setNum).m_cache_block_info_array =
            (self.m_sets setNum).m_cache_block_info_array ∧
          (r.1.m_sets setNum).m_blocks = (self.m_sets setNum).m_blocks ∧ r.2 = mem) ∧
      ((∃ i, i < 4 ∧ (self.m_sets setNum).m_LSC i <
          ((self.m_sets setNum).m_LSC lineNum + 1) % 2 ^ 32) →
        ∃ p, p < 4 ∧
          (∀ j, j < 4 → (self.m_sets setNum).m_LSC p ≤ (self.m_sets setNum).m_LSC j) ∧
          (∀ j, j < p → (self.m_sets setNum).m_LSC p < (self.m_sets setNum).m_LSC j) ∧
          (r.1.m_sets setNum).m_cache_block_info_array =
            Function.update
              (Function.update (self.m_sets setNum).m_cache_block_info_array p
                ((self.m_sets setNum).m_cache_block_info_array lineNum))
              lineNum ((self.m_sets setNum).m_cache_block_info_array p) ∧
          (∀ l o, (l ≠ p ∧ l ≠ lineNum) ∨ 64 ≤ o →
            (r.1.m_sets setNum).m_blocks l o = (self.m_sets setNum).m_blocks l o) ∧
          ((out1 + 8 ≤ out2 ∨ out2 + 8 ≤ out1) → ∀ o, o < 64 →
            (r.1.m_sets setNum).m_blocks p o = (self.m_sets setNum).m_blocks lineNum o ∧
              (r.1.m_sets setNum).m_blocks lineNum o =
                (self.m_sets setNum).m_blocks p o)) := by
  by_cases hex : ∃ i, i < 4 ∧ (self.m_sets setNum).m_LSC i <
      ((self.m_sets setNum).m_LSC lineNum + 1) % 2 ^ 32
  · obtain ⟨p, hp, hlt, hmin, hfirst, hcall⟩ :=
      updateLSC_trigger_partner self mem out1 out2 setNum lineNum hset hline hslow htrig hex
    obtain ⟨st, hswap, hassoc2, hbsz2, hinfo, hlsc, hframe, hexch⟩ :=
      swapLines_spec
        { self.m_sets setNum with
          m_LSC := Function.update (self.m_sets setNum).m_LSC lineNum
            (((self.m_sets setNum).m_LSC lineNum + 1) % 2 ^ 32) }
        mem out1 out2 p lineNum (by show p < (self.m_sets setNum).m_associativity; omega)
        hassoc hbs
    rw [hswap, Option.some_bind] at hcall
    refine ⟨_, hcall, ?_, ?_, ?_, ?_, rfl, ?_, ?_⟩
    · intro i hi
      simp only [Function.update_same, resetLSC_apply, hi, if_true]
    · intro s hs
      exact Function.update_noteq hs _ _
    · simp only [Function.update_same]
      exact hassoc2
    · simp only [Function.update_same]
      exact hbsz2
    · intro hall
      obtain ⟨i, hi, hlti⟩ := hex
      have := hall i hi
      omega
    · intro _
      refine ⟨p, hp, hmin, hfirst, ?_, ?_, ?_⟩
      · simp only [Function.update_same]
        exact hinfo
      · intro l o hlo
        simp only [Function.update_same]
        exact hframe l o hlo
      · intro hbuf o ho
        simp only [Function.update_same]
        exact hexch hbuf (by omega) o ho
  · have hall : ∀ i, i < 4 → ((self.m_sets setNum).m_LSC lineNum + 1) % 2 ^ 32 ≤
        (self.m_sets setNum).m_LSC i := by
      intro i hi
      by_contra hcon
      exact hex ⟨i, hi, by omega⟩
    have hcall := updateLSC_trigger_no_partner self mem out1 out2 setNum lineNum hset hline
      hslow htrig hall
    refine ⟨_, hcall, ?_, ?_, ?_, ?_, rfl, ?_, ?_⟩
    · intro i hi
      simp only [Function.update_same, resetLSC_apply, hi, if_true]
    · intro s hs
      exact Function.update_noteq hs _ _
    · simp only [Function.update_same]
    · simp only [Function.update_same]
    · intro _
      simp only [Function.update_same]
      exact ⟨trivial, trivial, trivial⟩
    · intro hex2
      exact absurd hex2 hex

/-- C12: for every set state and every defined call `updateLSC(setNum, lineNum)` with
`lineNum ≥ 4` (a line of the set, with lines of at least the 64 bytes the swap
loop covers) whose counter reaches the threshold 3 after the increment, all 16
tracked promotion counters of that set are zero when the call returns, whether or
not a swap took place, and every other set is unchanged. -/
theorem Cache.updateLSC_threshold_resets_counters (self : CacheSets) (mem : ByteMemory)
    (out1 out2 setNum lineNum : Nat)
    (hset : setNum < self.m_num_sets) (hline : lineNum < 16) (hslow : 4 ≤ lineNum)
    (hassoc : lineNum < (self.m_sets setNum).m_associativity)
    (hbs : 64 ≤ (self.m_sets setNum).m_blocksize)
    (htrig : 3 ≤ ((self.m_sets setNum).m_LSC lineNum + 1) % 2 ^ 32) :
    ∃ r, Cache.updateLSC self mem out1 out2 setNum lineNum = some r ∧
      (∀ i, i < 16 → (r.1.m_sets setNum).m_LSC i = 0) ∧
      (∀ s, s ≠ setNum → (r.1.m_sets s).m_LSC = (self.m_sets s).m_LSC) ∧
      (∀ s, s ≠ setNum → r.1.m_sets s = self.m_sets s) := by
  obtain ⟨r, hcall, hzero, hother, _⟩ :=
    updateLSC_trigger self mem out1 out2 setNum lineNum hset hline hslow hassoc hbs htrig
  exact ⟨r, hcall, hzero, fun s hs => by rw [hother s hs], hother⟩

/-- Witness of C12: the third access to slow-tier line 4 of a sample set. -/
theorem Cache.updateLSC_threshold_resets_counters_witness :
    ∃ r, Cache.updateLSC (sampleSets 64 (fun i => if i = 4 then 2 else 1)) (fun _ => 0)
        0 8 0 4 = some r ∧
      (∀ i, i < 16 → (r.1.m_sets 0).m_LSC i = 0) ∧
      (∀ s, s ≠ 0 → (r.1.m_sets s).m_LSC =
        ((sampleSets 64 (fun i => if i = 4 then 2 else 1)).m_sets s).m_LSC) ∧
      (∀ s, s ≠ 0 → r.1.m_sets s =
        (sampleSets 64 (fun i => if i = 4 then 2 else 1)).m_sets s) :=
  Cache.updateLSC_threshold_resets_counters (sampleSets 64 (fun i => if i = 4 then 2 else 1))
    (fun _ => 0) 0 8 0 4 (by decide) (by decide) (by decide) (by decide) (by decide)
    (by decide)

/-- C13, as stated, fails: with the four fast-tier counters at 3 and the counter of
slow-tier line 4 driven from 2 to 3, slot 0 holds the least fast-tier counter, yet
no swap is made: slots 0 and 4 keep their metadata pointers `100` and `104`. -/
theorem Cache.updateLSC_no_swap_when_fast_tier_not_below :
    (((sampleSets 64 (fun i => if i = 4 then 2 else 3)).m_sets 0).m_cache_block_info_array 0,
        ((sampleSets 64 (fun i => if i = 4 then 2 else 3)).m_sets 0).m_cache_block_info_array 4) =
        (100, 104) ∧
      (Cache.updateLSC (sampleSets 64 (fun i => if i = 4 then 2 else 3)) (fun _ => 0)
        0 8 0 4).map
        (fun r => ((r.1.m_sets 0).m_LSC 4, (r.1.m_sets 0).m_cache_block_info_array 0,
          (r.1.m_sets 0).m_cache_block_info_array 4)) = some (0, 100, 104) := by
  decide

/-- C13, amended: for every set state in which a defined call `updateLSC(setNum,
lineNum)` with `lineNum ≥ 4` drives that line's counter to the threshold: when some
fast-tier counter is below the line's incremented counter, the swap partner is the
fast-tier slot (index 0..3) holding the least counter among the four fast-tier
slots (the lowest index when several tie), and after the call the metadata slot
assignments of the partner and of `lineNum` are exchanged while every other slot
keeps its metadata; when no fast-tier counter is below it, no metadata slot
assignment changes. -/
theorem Cache.updateLSC_partner_is_first_least_fast_slot (self : CacheSets)
    (mem : ByteMemory) (out1 out2 setNum lineNum : Nat)
    (hset : setNum < self.m_num_sets) (hline : lineNum < 16) (hslow : 4 ≤ lineNum)
    (hassoc : lineNum < (self.m_sets setNum).m_associativity)
    (hbs : 64 ≤ (self.m_sets setNum).m_blocksize)
    (htrig : 3 ≤ ((self.m_sets setNum).m_LSC lineNum + 1) % 2 ^ 32) :
    ∃ r, Cache.updateLSC self mem out1 out2 setNum lineNum = some r ∧
      ((∃ i, i < 4 ∧ (self.m_sets setNum).m_LSC i <
          ((self.m_sets setNum).m_LSC lineNum + 1) % 2 ^ 32) →
        ∃ p, p < 4 ∧
          (∀ j, j < 4 → (self.m_sets setNum).m_LSC p ≤ (self.m_sets setNum).m_LSC j) ∧
          (∀ j, j < p → (self.m_sets setNum).m_LSC p < (self.m_sets setNum).m_LSC j) ∧
          (r.1.m_sets setNum).m_cache_block_info_array p =
            (self.m_sets setNum).m_cache_block_info_array lineNum ∧
          (r.1.m_sets setNum).m_cache_block_info_array lineNum =
            (self.m_sets setNum).m_cache_block_info_array p ∧
          ∀ i, i ≠ p → i ≠ lineNum →
            (r.1.m_sets setNum).m_cache_block_info_array i =
              (self.m_sets setNum).m_cache_block_info_array i) ∧
      ((∀ i, i < 4 → ((self.m_sets setNum).m_LSC lineNum + 1) % 2 ^ 32 ≤
          (self.m_sets setNum).m_LSC i) →
        (r.1.m_sets setNum).m_cache_block_info_array =
          (self.m_sets setNum).m_cache_block_info_array) := by
  obtain ⟨r, hcall, _, _, _, _, _, hnone, hsome⟩ :=
    updateLSC_trigger self mem out1 out2 setNum lineNum hset hline hslow hassoc hbs htrig
  refine ⟨r, hcall, ?_, fun hall => (hnone hall).1⟩
  intro hex
  obtain ⟨p, hp, hmin, hfirst, hinfo, _, _⟩ := hsome hex
  have hne : p ≠ lineNum := by omega
  refine ⟨p, hp, hmin, hfirst, ?_, ?_, ?_⟩
  · rw [hinfo, Function.update_noteq hne, Function.update_same]
  · rw [hinfo, Function.update_same]
  · intro i hip hil
    rw [hinfo, Function.update_noteq hil, Function.update_noteq hip]

/-- Witness of the amended C13: fast-tier counters 5, 1, 1, 5 and the third access to
slow-tier line 4. -/
theorem Cache.updateLSC_partner_is_first_least_fast_slot_witness :
    ∃ r, Cache.updateLSC
        (sampleSets 64 (fun i => if i = 4 then 2 else if i = 1 ∨ i = 2 then 1 else 5))
        (fun _ => 0) 0 8 0 4 = some r ∧
      ((∃ i, i < 4 ∧
          ((sampleSets 64 (fun i => if i = 4 then 2 else if i = 1 ∨ i = 2 then 1 else 5)).m_sets
            0).m_LSC i <
          (((sampleSets 64 (fun i => if i = 4 then 2 else if i = 1 ∨ i = 2 then 1 else 5)).m_sets
            0).m_LSC 4 + 1) % 2 ^ 32) →
        ∃ p, p < 4 ∧
          (∀ j, j < 4 →
            ((sampleSets 64 (fun i => if i = 4 then 2 else if i = 1 ∨ i = 2 then 1 else 5)).m_sets
              0).m_LSC p ≤
            ((sampleSets 64 (fun i => if i = 4 then 2 else if i = 1 ∨ i = 2 then 1 else 5)).m_sets
              0).m_LSC j) ∧
          (∀ j, j < p →
            ((sampleSets 64 (fun i => if i = 4 then 2 else if i = 1 ∨ i = 2 then 1 else 5)).m_sets
              0).m_LSC p <
            ((sampleSets 64 (fun i => if i = 4 then 2 else if i = 1 ∨ i = 2 then 1 else 5)).m_sets
              0).m_LSC j) ∧
          (r.1.m_sets 0).m_cache_block_info_array p =
            ((sampleSets 64
              (fun i => if i = 4 then 2 else if i = 1 ∨ i = 2 then 1 else 5)).m_sets
              0).m_cache_block_info_array 4 ∧
          (r.1.m_sets 0).m_cache_block_info_array 4 =
            ((sampleSets 64
              (fun i => if i = 4 then 2 else if i = 1 ∨ i = 2 then 1 else 5)).m_sets
              0).m_cache_block_info_array p ∧
          ∀ i, i ≠ p → i ≠ 4 →
            (r.1.m_sets 0).m_cache_block_info_array i =
              ((sampleSets 64
                (fun i => if i = 4 then 2 else if i = 1 ∨ i = 2 then 1 else 5)).m_sets
                0).m_cache_block_info_array i) ∧
      ((∀ i, i < 4 →
          (((sampleSets 64 (fun i => if i = 4 then 2 else if i = 1 ∨ i = 2 then 1 else 5)).m_sets
            0).m_LSC 4 + 1) % 2 ^ 32 ≤
          ((sampleSets 64 (fun i => if i = 4 then 2 else if i = 1 ∨ i = 2 then 1 else 5)).m_sets
            0).m_LSC i) →
        (r.1.m_sets 0).m_cache_block_info_array =
          ((sampleSets 64
            (fun i => if i = 4 then 2 else if i = 1 ∨ i = 2 then 1 else 5)).m_sets
            0).m_cache_block_info_array) :=
  Cache.updateLSC_partner_is_first_least_fast_slot
    (sampleSets 64 (fun i => if i = 4 then 2 else if i = 1 ∨ i = 2 then 1 else 5))
    (fun _ => 0) 0 8 0 4 (by decide) (by decide) (by decide) (by decide) (by decide)
    (by decide)

/-- C14, as stated, fails: with 128-byte lines and separate transfer buffers, the
promotion swap of slot 0 and slot 4 exchanges the bytes at offset 63 but leaves the
bytes at offset 64 where they were (slot 0 keeps its `1`, slot 4 its `5`). -/
theorem Cache.updateLSC_swap_stops_at_64_bytes :
    (((sampleSets 128 (fun i => if i = 4 then 2 else 0)).m_sets 0).m_blocksize,
        ((sampleSets 128 (fun i => if i = 4 then 2 else 0)).m_sets 0).m_blocks 0 64,
        ((sampleSets 128 (fun i => if i = 4 then 2 else 0)).m_sets 0).m_blocks 4 64) =
        (128, 1, 5) ∧
      (Cache.updateLSC (sampleSets 128 (fun i => if i = 4 then 2 else 0)) (fun _ => 0)
        0 8 0 4).map
        (fun r => ((r.1.m_sets 0).m_cache_block_info_array 0,
          (r.1.m_sets 0).m_cache_block_info_array 4,
          (r.1.m_sets 0).m_blocks 0 63, (r.1.m_sets 0).m_blocks 4 63,
          (r.1.m_sets 0).m_blocks 0 64, (r.1.m_sets 0).m_blocks 4 64)) =
        some (104, 100, 5, 1, 1, 5) := by
  decide

/-- C14, amended: with 64-byte lines, for every promotion swap performed by a defined
call of `updateLSC` whose two transfer buffers are separate 8-byte buffers, the
data contents of the two swapped lines are exchanged across the full line width:
after the call each byte offset in `[0, lineSize)` of the fast-tier slot holds what
the slow-tier slot held before at that offset, and vice versa, and the data of
every other line is as before. -/
theorem Cache.updateLSC_exchanges_64_byte_lines (self : CacheSets) (mem : ByteMemory)
    (out1 out2 setNum lineNum : Nat)
    (hset : setNum < self.m_num_sets) (hline : lineNum < 16) (hslow : 4 ≤ lineNum)
    (hassoc : lineNum < (self.m_sets setNum).m_associativity)
    (hbs : (self.m_sets setNum).m_blocksize = 64)
    (htrig : 3 ≤ ((self.m_sets setNum).m_LSC lineNum + 1) % 2 ^ 32)
    (hex : ∃ i, i < 4 ∧ (self.m_sets setNum).m_LSC i <
      ((self.m_sets setNum).m_LSC lineNum + 1) % 2 ^ 32)
    (hbuf : out1 + 8 ≤ out2 ∨ out2 + 8 ≤ out1) :
    ∃ r p, Cache.updateLSC self mem out1 out2 setNum lineNum = some r ∧ p < 4 ∧
      (∀ j, j < 4 → (self.m_sets setNum).m_LSC p ≤ (self.m_sets setNum).m_LSC j) ∧
      (∀ j, j < p → (self.m_sets setNum).m_LSC p < (self.m_sets setNum).m_LSC j) ∧
      (∀ o, o < (self.m_sets setNum).m_blocksize →
        (r.1.m_sets setNum).m_blocks p o = (self.m_sets setNum).m_blocks lineNum o ∧
          (r.1.m_sets setNum).m_blocks lineNum o = (self.m_sets setNum).m_blocks p o) ∧
      (∀ l o, l ≠ p → l ≠ lineNum →
        (r.1.m_sets setNum).m_blocks l o = (self.m_sets setNum).m_blocks l o) := by
  obtain ⟨r, hcall, _, _, _, _, _, _, hsome⟩ :=
    updateLSC_trigger self mem out1 out2 setNum lineNum hset hline hslow hassoc
      (by rw [hbs]) htrig
  obtain ⟨p, hp, hmin, hfirst, _, hframe, hexch⟩ := hsome hex
  refine ⟨r, p, hcall, hp, hmin, hfirst, ?_, ?_⟩
  · intro o ho
    rw [hbs] at ho
    exact hexch hbuf o ho
  · intro l o hlp hll
    exact hframe l o (Or.inl ⟨hlp, hll⟩)

/-- Witness of the amended C14: slot 0 and slot 4 of a sample set with 64-byte lines,
buffers at addresses 0 and 8. -/
theorem Cache.updateLSC_exchanges_64_byte_lines_witness :
    ∃ r p, Cache.updateLSC (sampleSets 64 (fun i => if i = 4 then 2 else 0)) (fun _ => 0)
        0 8 0 4 = some r ∧ p < 4 ∧
      (∀ j, j < 4 →
        ((sampleSets 64 (fun i => if i = 4 then 2 else 0)).m_sets 0).m_LSC p ≤
          ((sampleSets 64 (fun i => if i = 4 then 2 else 0)).m_sets 0).m_LSC j) ∧
      (∀ j, j < p →
        ((sampleSets 64 (fun i => if i = 4 then 2 else 0)).m_sets 0).m_LSC p <
          ((sampleSets 64 (fun i => if i = 4 then 2 else 0)).m_sets 0).m_LSC j) ∧
      (∀ o, o < ((sampleSets 64 (fun i => if i = 4 then 2 else 0)).m_sets 0).m_blocksize →
        (r.1.m_sets 0).m_blocks p o =
            ((sampleSets 64 (fun i => if i = 4 then 2 else 0)).m_sets 0).m_blocks 4 o ∧
          (r.1.m_sets 0).m_blocks 4 o =
            ((sampleSets 64 (fun i => if i = 4 then 2 else 0)).m_sets 0).m_blocks p o) ∧
      (∀ l o, l ≠ p → l ≠ 4 →
        (r.1.m_sets 0).m_blocks l o =
          ((sampleSets 64 (fun i => if i = 4 then 2 else 0)).m_sets 0).m_blocks l o) :=
  Cache.updateLSC_exchanges_64_byte_lines (sampleSets 64 (fun i => if i = 4 then 2 else 0))
    (fun _ => 0) 0 8 0 4 (by decide) (by decide) (by decide) (by decide) (by decide)
    (by decide) ⟨0, by decide, by decide⟩ (Or.inl (by decide))

/-- The facts a sequence of `updateLSC` calls on set `setNum` preserves: the geometry
of the cache and of the set, and slow-tier counters of at most 2. -/
theorem updateLSC_preserves_slow_bound (base : CacheSets) (st : CacheSets × ByteMemory)
    (setNum lineNum out1 out2 : Nat)
    (hset : setNum < base.m_num_sets) (hbs : 64 ≤ (base.m_sets setNum).m_blocksize)
    (hline : lineNum < 16) (hassoc : lineNum < (base.m_sets setNum).m_associativity)
    (hinv : st.1.m_num_sets = base.m_num_sets ∧
      (st.1.m_sets setNum).m_associativity = (base.m_sets setNum).m_associativity ∧
      (st.1.m_sets setNum).m_blocksize = (base.m_sets setNum).m_blocksize ∧
      ∀ i, 4 ≤ i → i < 16 → (st.1.m_sets setNum).m_LSC i ≤ 2) :
    ∃ st', Cache.updateLSC st.1 st.2 out1 out2 setNum lineNum = some st' ∧
      st'.1.m_num_sets = base.m_num_sets ∧
      (st'.1.m_sets setNum).m_associativity = (base.m_sets setNum).m_associativity ∧
      (st'.1.m_sets setNum).m_blocksize = (base.m_sets setNum).m_blocksize ∧
      ∀ i, 4 ≤ i → i < 16 → (st'.1.m_sets setNum).m_LSC i ≤ 2 := by
  obtain ⟨hnum, hassoc2, hbsz, hslow⟩ := hinv
  have hset2 : setNum < st.1.m_num_sets := by rw [hnum]; exact hset
  by_cases hno : lineNum < 4 ∨ ((st.1.m_sets setNum).m_LSC lineNum + 1) % 2 ^ 32 < 3
  · have hcall := updateLSC_no_trigger st.1 st.2 out1 out2 setNum lineNum hset2 hline hno
    refine ⟨_, hcall, hnum, ?_, ?_, ?_⟩
    · simp only [Function.update_same]
      exact hassoc2
    · simp only [Function.update_same]
      exact hbsz
    · intro i hi4 hi16
      simp only [Function.update_same]
      by_cases hil : i = lineNum
      · subst hil
        rw [Function.update_same]
        rcases hno with h | h
        · omega
        · omega
      · rw [Function.update_noteq hil]
        exact hslow i hi4 hi16
  · have hslow4 : 4 ≤ lineNum := by omega
    have htrig : 3 ≤ ((st.1.m_sets setNum).m_LSC lineNum + 1) % 2 ^ 32 := by omega
    obtain ⟨r, hcall, hzero, _, hassoc3, hbsz3, hnum3, _⟩ :=
      updateLSC_trigger st.1 st.2 out1 out2 setNum lineNum hset2 hline hslow4
        (by rw [hassoc2]; exact hassoc) (by rw [hbsz]; exact hbs) htrig
    refine ⟨r, hcall, by rw [hnum3, hnum], by rw [hassoc3, hassoc2], by rw [hbsz3, hbsz], ?_⟩
    intro i _ hi16
    rw [hzero i hi16]
    exact Nat.zero_le 2

theorem runLSC_preserves_slow_bound (base : CacheSets) (setNum : Nat)
    (hset : setNum < base.m_num_sets) (hbs : 64 ≤ (base.m_sets setNum).m_blocksize)
    (calls : List LSCCall) :
    ∀ st : CacheSets × ByteMemory,
      (∀ c, c ∈ calls →
        c.lineNum < 16 ∧ c.lineNum < (base.m_sets setNum).m_associativity) →
      (st.1.m_num_sets = base.m_num_sets ∧
        (st.1.m_sets setNum).m_associativity = (base.m_sets setNum).m_associativity ∧
        (st.1.m_sets setNum).m_blocksize = (base.m_sets setNum).m_blocksize ∧
        ∀ i, 4 ≤ i → i < 16 → (st.1.m_sets setNum).m_LSC i ≤ 2) →
      ∃ st', Cache.runLSC setNum st calls = some st' ∧
        st'.1.m_num_sets = base.m_num_sets ∧
        (st'.1.m_sets setNum).m_associativity = (base.m_sets setNum).m_associativity ∧
        (st'.1.m_sets setNum).m_blocksize = (base.m_sets setNum).m_blocksize ∧
        ∀ i, 4 ≤ i → i < 16 → (st'.1.m_sets setNum).m_LSC i ≤ 2 := by
  induction calls with
  | nil =>
    intro st _ hinv
    exact ⟨st, rfl, hinv⟩
  | cons c rest ih =>
    intro st hcalls hinv
    obtain ⟨hc16, hcassoc⟩ := hcalls c (List.mem_cons_self c rest)
    obtain ⟨st1, hcall, hinv1⟩ :=
      updateLSC_preserves_slow_bound base st setNum c.lineNum c.out1 c.out2 hset hbs hc16
        hcassoc hinv
    obtain ⟨st2, hrun, hinv2⟩ :=
      ih st1 (fun d hd => hcalls d (List.mem_cons_of_mem c hd)) hinv1
    refine ⟨st2, ?_, hinv2⟩
    simp only [Cache.runLSC, hcall, Option.some_bind]
    exact hrun

/-- C19: from a set with all-zero promotion counters (in a cache with lines of at
least 64 bytes), every sequence of defined `updateLSC` calls on the set (line
indices among the 16 counters and below the associativity) runs to a state in which
every slow-tier counter (indices 4..15) is at most 2. Hence for a further call on a
slow-tier line the incremented counter is at most 3, so the `>= 3` trigger fires
exactly when it equals 3; on such a call the metadata of the line and of a
fast-tier partner are exchanged when some fast-tier counter is at most 2, and
neither metadata nor data changes when none is; below the threshold nothing but
the counter changes. -/
theorem Cache.updateLSC_slow_counters_at_most_two (self : CacheSets) (mem : ByteMemory)
    (setNum : Nat) (calls : List LSCCall)
    (hset : setNum < self.m_num_sets) (hbs : 64 ≤ (self.m_sets setNum).m_blocksize)
    (hzero : ∀ i, i < 16 → (self.m_sets setNum).m_LSC i = 0)
    (hcalls : ∀ c, c ∈ calls →
      c.lineNum < 16 ∧ c.lineNum < (self.m_sets setNum).m_associativity) :
    ∃ st, Cache.runLSC setNum (self, mem) calls = some st ∧
      (∀ i, 4 ≤ i → i < 16 → (st.1.m_sets setNum).m_LSC i ≤ 2) ∧
      ∀ lineNum out1 out2, 4 ≤ lineNum → lineNum < 16 →
        lineNum < (self.m_sets setNum).m_associativity →
        ((st.1.m_sets setNum).m_LSC lineNum + 1) % 2 ^ 32 =
            (st.1.m_sets setNum).m_LSC lineNum + 1 ∧
          (3 ≤ ((st.1.m_sets setNum).m_LSC lineNum + 1) % 2 ^ 32 ↔
            (st.1.m_sets setNum).m_LSC lineNum + 1 = 3) ∧
          ∃ r, Cache.updateLSC st.1 st.2 out1 out2 setNum lineNum = some r ∧
            ((st.1.m_sets setNum).m_LSC lineNum + 1 = 3 →
              (∃ i, i < 4 ∧ (st.1.m_sets setNum).m_LSC i ≤ 2) →
              ∃ p, p < 4 ∧
                (r.1.m_sets setNum).m_cache_block_info_array p =
                  (st.1.m_sets setNum).m_cache_block_info_array lineNum ∧
                (r.1.m_sets setNum).m_cache_block_info_array lineNum =
                  (st.1.m_sets setNum).m_cache_block_info_array p) ∧
            ((st.1.m_sets setNum).m_LSC lineNum + 1 = 3 →
              (∀ i, i < 4 → 2 < (st.1.m_sets setNum).m_LSC i) →
              (r.1.m_sets setNum).m_cache_block_info_array =
                  (st.1.m_sets setNum).m_cache_block_info_array ∧
                (r.1.m_sets setNum).m_blocks = (st.1.m_sets setNum).m_blocks) ∧
            ((st.1.m_sets setNum).m_LSC lineNum + 1 < 3 →
              (r.1.m_sets setNum).m_cache_block_info_array =
                  (st.1.m_sets setNum).m_cache_block_info_array ∧
                (r.1.m_sets setNum).m_blocks = (st.1.m_sets setNum).m_blocks) := by
  obtain ⟨st, hrun, hnum, hassoc, hbsz, hslow⟩ :=
    runLSC_preserves_slow_bound self setNum hset hbs calls (self, mem) hcalls
      ⟨rfl, rfl, rfl, fun i _ hi16 => by rw [hzero i hi16]; exact Nat.zero_le 2⟩
  refine ⟨st, hrun, hslow, ?_⟩
  intro lineNum out1 out2 h4 h16 hlassoc
  have hle := hslow lineNum h4 h16
  have hmod : ((st.1.m_sets setNum).m_LSC lineNum + 1) % 2 ^ 32 =
      (st.1.m_sets setNum).m_LSC lineNum + 1 :=
    Nat.mod_eq_of_lt (by norm_num; omega)
  have hset2 : setNum < st.1.m_num_sets := by rw [hnum]; exact hset
  refine ⟨hmod, by rw [hmod]; omega, ?_⟩
  by_cases hthr : (st.1.m_sets setNum).m_LSC lineNum + 1 = 3
  · obtain ⟨r, hcall, _, _, _, _, _, hnone, hsome⟩ :=
      updateLSC_trigger st.1 st.2 out1 out2 setNum lineNum hset2 h16 h4
        (by rw [hassoc]; exact hlassoc) (by rw [hbsz]; exact hbs) (by rw [hmod]; omega)
    rw [hmod, hthr] at hnone hsome
    refine ⟨r, hcall, ?_, ?_, ?_⟩
    · intro _ hex
      obtain ⟨i, hi, hi2⟩ := hex
      obtain ⟨p, hp, _, _, hinfo, _, _⟩ := hsome ⟨i, hi, by omega⟩
      have hne : p ≠ lineNum := by omega
      refine ⟨p, hp, ?_, ?_⟩
      · rw [hinfo, Function.update_noteq hne, Function.update_same]
      · rw [hinfo, Function.update_same]
    · intro _ hall
      obtain ⟨h1, h2, _⟩ := hnone (fun i hi => by have := hall i hi; omega)
      exact ⟨h1, h2⟩
    · intro hlt
      omega
  · have hlt : (st.1.m_sets setNum).m_LSC lineNum + 1 < 3 := by omega
    have hcall := updateLSC_no_trigger st.1 st.2 out1 out2 setNum lineNum hset2 h16
      (Or.inr (by rw [hmod]; exact hlt))
    refine ⟨_, hcall, ?_, ?_, ?_⟩
    · intro h3
      exact absurd h3 hthr
    · intro h3
      exact absurd h3 hthr
    · intro _
      simp only [Function.update_same]
      exact ⟨trivial, trivial⟩

/-- Witness of C19: three accesses to fast-tier line 0 and two to slow-tier line 5 of
an all-zero sample set. -/
theorem Cache.updateLSC_slow_counters_at_most_two_witness :
    ∃ st, Cache.runLSC 0 (sampleSets 64 (fun _ => 0), fun _ => 0)
        [⟨0, 0, 8⟩, ⟨5, 0, 8⟩, ⟨0, 0, 8⟩, ⟨0, 0, 8⟩, ⟨5, 0, 8⟩] = some st ∧
      (∀ i, 4 ≤ i → i < 16 → (st.1.m_sets 0).m_LSC i ≤ 2) ∧
      ∀ lineNum out1 out2, 4 ≤ lineNum → lineNum < 16 →
        lineNum < ((sampleSets 64 (fun _ => 0)).m_sets 0).m_associativity →
        ((st.1.m_sets 0).m_LSC lineNum + 1) % 2 ^ 32 = (st.1.m_sets 0).m_LSC lineNum + 1 ∧
          (3 ≤ ((st.1.m_sets 0).m_LSC lineNum + 1) % 2 ^ 32 ↔
            (st.1.m_sets 0).m_LSC lineNum + 1 = 3) ∧
          ∃ r, Cache.updateLSC st.1 st.2 out1 out2 0 lineNum = some r ∧
            ((st.1.m_sets 0).m_LSC lineNum + 1 = 3 →
              (∃ i, i < 4 ∧ (st.1.m_sets 0).m_LSC i ≤ 2) →
              ∃ p, p < 4 ∧
                (r.1.m_sets 0).m_cache_block_info_array p =
                  (st.1.m_sets 0).m_cache_block_info_array lineNum ∧
                (r.1.m_sets 0).m_cache_block_info_array lineNum =
                  (st.1.m_sets 0).m_cache_block_info_array p) ∧
            ((st.1.m_sets 0).m_LSC lineNum + 1 = 3 →
              (∀ i, i < 4 → 2 < (st.1.m_sets 0).m_LSC i) →
              (r.1.m_sets 0).m_cache_block_info_array =
                  (st.1.m_sets 0).m_cache_block_info_array ∧
                (r.1.m_sets 0).m_blocks = (st.1.m_sets 0).m_blocks) ∧
            ((st.1.m_sets 0).m_LSC lineNum + 1 < 3 →
              (r.1.m_sets 0).m_cache_block_info_array =
                  (st.1.m_sets 0).m_cache_block_info_array ∧
                (r.1.m_sets 0).m_blocks = (st.1.m_sets 0).m_blocks) :=
  Cache.updateLSC_slow_counters_at_most_two (sampleSets 64 (fun _ => 0)) (fun _ => 0) 0
    [⟨0, 0, 8⟩, ⟨5, 0, 8⟩, ⟨0, 0, 8⟩, ⟨0, 0, 8⟩, ⟨5, 0, 8⟩] (by decide) (by decide)
    (fun _ _ => rfl) (by decide)

/-- With separate transfer buffers and 64-byte lines every defined call of `updateLSC`
only permutes (metadata pointer, line data) pairs among the slots of the set. -/
theorem updateLSC_keeps_pairs_with_separate_buffers (self : CacheSets) (mem : ByteMemory)
    (out1 out2 setNum lineNum : Nat)
    (hset : setNum < self.m_num_sets) (hline : lineNum < 16)
    (hassoc : lineNum < (self.m_sets setNum).m_associativity)
    (hbs : (self.m_sets setNum).m_blocksize = 64)
    (hbuf : out1 + 8 ≤ out2 ∨ out2 + 8 ≤ out1) :
    ∃ r, Cache.updateLSC self mem out1 out2 setNum lineNum = some r ∧
      ∀ i, i < (self.m_sets setNum).m_associativity →
        ∃ j, j < (self.m_sets setNum).m_associativity ∧
          (r.1.m_sets setNum).m_cache_block_info_array j =
            (self.m_sets setNum).m_cache_block_info_array i ∧
          ∀ o, o < 64 →
            (r.1.m_sets setNum).m_blocks j o = (self.m_sets setNum).m_blocks i o := by
  by_cases hno : lineNum < 4 ∨ ((self.m_sets setNum).m_LSC lineNum + 1) % 2 ^ 32 < 3
  · have hcall := updateLSC_no_trigger self mem out1 out2 setNum lineNum hset hline hno
    refine ⟨_, hcall, ?_⟩
    intro i hi
    refine ⟨i, hi, ?_, ?_⟩
    · simp only [Function.update_same]
    · intro o _
      simp only [Function.update_same]
  · have hslow : 4 ≤ lineNum := by omega
    have htrig : 3 ≤ ((self.m_sets setNum).m_LSC lineNum + 1) % 2 ^ 32 := by omega
    obtain ⟨r, hcall, _, _, _, _, _, hnone, hsome⟩ :=
      updateLSC_trigger self mem out1 out2 setNum lineNum hset hline hslow hassoc
        (by rw [hbs]) htrig
    refine ⟨r, hcall, ?_⟩
    by_cases hex : ∃ i, i < 4 ∧ (self.m_sets setNum).m_LSC i <
        ((self.m_sets setNum).m_LSC lineNum + 1) % 2 ^ 32
    · obtain ⟨p, hp, _, _, hinfo, hframe, hexch⟩ := hsome hex
      have hne : p ≠ lineNum := by omega
      intro i hi
      by_cases hip : i = p
      · subst hip
        refine ⟨lineNum, hassoc, ?_, ?_⟩
        · rw [hinfo, Function.update_same]
        · intro o ho
          exact (hexch hbuf o ho).2
      · by_cases hil : i = lineNum
        · subst hil
          refine ⟨p, by omega, ?_, ?_⟩
          · rw [hinfo, Function.update_noteq hne, Function.update_same]
          · intro o ho
            exact (hexch hbuf o ho).1
        · refine ⟨i, hi, ?_, ?_⟩
          · rw [hinfo, Function.update_noteq hil, Function.update_noteq hip]
          · intro o _
            exact hframe i o (Or.inl ⟨hip, hil⟩)
    · have hall : ∀ i, i < 4 → ((self.m_sets setNum).m_LSC lineNum + 1) % 2 ^ 32 ≤
          (self.m_sets setNum).m_LSC i := by
        intro i hi
        by_contra hcon
        exact hex ⟨i, hi, by omega⟩
      obtain ⟨h1, h2, _⟩ := hnone hall
      intro i hi
      exact ⟨i, hi, by rw [h1], fun o _ => by rw [h2]⟩

/-- C18, failing input: 64-byte lines, slot 0 holding metadata pointer `100` and data
bytes `1`, slot 4 holding pointer `104` and data bytes `5`, the counter of line 4 at
2, and the two uninitialised buffer pointers holding the same address. After
`updateLSC(0, 4)` slot 4 carries the metadata `100` but still the data bytes `5`,
and slot 0 carries the metadata `104` with the data bytes `5`: the tag of `100` is
separated from its data, which is lost. -/
theorem Cache.updateLSC_shared_buffer_separates_tag_from_data :
    (((sampleSets 64 (fun i => if i = 4 then 2 else 0)).m_sets 0).m_cache_block_info_array 0,
        ((sampleSets 64 (fun i => if i = 4 then 2 else 0)).m_sets 0).m_blocks 0 0,
        ((sampleSets 64 (fun i => if i = 4 then 2 else 0)).m_sets 0).m_cache_block_info_array 4,
        ((sampleSets 64 (fun i => if i = 4 then 2 else 0)).m_sets 0).m_blocks 4 0) =
        (100, 1, 104, 5) ∧
      (Cache.updateLSC (sampleSets 64 (fun i => if i = 4 then 2 else 0)) (fun _ => 0)
        0 0 0 4).map
        (fun r => ((r.1.m_sets 0).m_cache_block_info_array 4,
          (List.range 64).map ((r.1.m_sets 0).m_blocks 4),
          (r.1.m_sets 0).m_cache_block_info_array 0,
          (List.range 64).map ((r.1.m_sets 0).m_blocks 0))) =
        some (100, List.replicate 64 5, 104, List.replicate 64 5) := by
  decide

/-! ## Line metadata factory -/

/-- C15: the factory `CacheBlockInfo::create(cacheType)` returns a non-null, newly
allocated record of the matching class for each of the three recognised cache
types, and returns null (after logging an error) for every other value; it returns
null for no recognised type. -/
theorem CacheBlockInfo.create_spec :
    CacheBlockInfo.create cache_t.PR_L1_CACHE =
        (some BlockInfoClass.PrL1CacheBlockInfo, false) ∧
      CacheBlockInfo.create cache_t.PR_L2_CACHE =
        (some BlockInfoClass.PrL2CacheBlockInfo, false) ∧
      CacheBlockInfo.create cache_t.SHARED_CACHE =
        (some BlockInfoClass.SharedCacheBlockInfo, false) ∧
      (∀ code, CacheBlockInfo.create (cache_t.other code) = (none, true)) ∧
      ∀ cache_type, (CacheBlockInfo.create cache_type).1 = none ↔
        (cache_type ≠ cache_t.PR_L1_CACHE ∧ cache_type ≠ cache_t.PR_L2_CACHE ∧
          cache_type ≠ cache_t.SHARED_CACHE) := by
  refine ⟨rfl, rfl, rfl, fun _ => rfl, ?_⟩
  intro cache_type
  cases cache_type <;> simp [CacheBlockInfo.create]

/-! ## Line access and address decomposition -/

/-- C16: for every address, access kind, buffer and length, when the set index of the
address is a set of the cache and the owning set's `find` reports no line for the
address's tag, `accessSingleLine` returns null and issues no `read_line`, no
`write_line` and no fault-injector `preRead`/`postWrite` call: the sets (hence all
line data) and the memory holding the caller's buffer are unchanged. -/
theorem Cache.accessSingleLine_miss (splitAddress : Nat → Nat × Nat × Nat)
    (find : CacheSet → Nat → Option (Nat × Nat)) (m_fault_injector : Option FaultInjector)
    (self : CacheSets) (mem : ByteMemory) (addr : Nat) (access_type : access_t)
    (buff bytes now : Nat) (update_replacement : Bool)
    (hset : (splitAddress addr).2.1 < self.m_num_sets)
    (hmiss : find (self.m_sets (splitAddress addr).2.1) (splitAddress addr).1 = none) :
    Cache.accessSingleLine splitAddress find m_fault_injector self mem addr access_type
      buff bytes now update_replacement = some (none, self, mem, []) := by
  simp only [Cache.accessSingleLine, hset, if_true, hmiss]

/-- Witness of C16: a load of 4 bytes at address 1070 whose tag is not in the set. -/
theorem Cache.accessSingleLine_miss_witness :
    Cache.accessSingleLine (CacheBase.splitAddress 6 1)
      (fun s t => if t = 0 then some (s.m_cache_block_info_array 2, 2) else none) none
      (sampleSets 64 (fun _ => 0)) (fun _ => 0) 1070 access_t.LOAD 10 4 0 true =
      some (none, sampleSets 64 (fun _ => 0), fun _ => 0, []) :=
  Cache.accessSingleLine_miss (CacheBase.splitAddress 6 1)
    (fun s t => if t = 0 then some (s.m_cache_block_info_array 2, 2) else none) none
    (sampleSets 64 (fun _ => 0)) (fun _ => 0) 1070 access_t.LOAD 10 4 0 true
    (by decide) (by decide)

theorem splitAddress_reconstruct (lb ls addr : Nat) :
    CacheBase.reconstruct lb ls (CacheBase.splitAddress lb ls addr).1
      (CacheBase.splitAddress lb ls addr).2.1 (CacheBase.splitAddress lb ls addr).2.2 = addr := by
  simp only [CacheBase.reconstruct, CacheBase.splitAddress, Nat.shiftLeft_eq,
    Nat.shiftRight_eq_div_pow]
  have h1 : addr / 2 ^ (lb + ls) = addr / 2 ^ lb / 2 ^ ls := by
    rw [Nat.pow_add, Nat.div_div_eq_div_mul]
  have h2 := Nat.div_add_mod (addr / 2 ^ lb) (2 ^ ls)
  have h3 := Nat.div_add_mod addr (2 ^ lb)
  rw [h1, Nat.pow_add]
  calc addr / 2 ^ lb / 2 ^ ls * (2 ^ lb * 2 ^ ls) + addr / 2 ^ lb % 2 ^ ls * 2 ^ lb +
        addr % 2 ^ lb
      = 2 ^ lb * (2 ^ ls * (addr / 2 ^ lb / 2 ^ ls) + addr / 2 ^ lb % 2 ^ ls) +
        addr % 2 ^ lb := by ring
    _ = addr := by rw [h2, h3]

/-- C17: for every address `a`, the `(tag, setIndex, blockOffset)` produced by
`splitAddress` for a cache of `2^ls` sets with lines of `2^lb` bytes reconstructs
`a` exactly, with `setIndex < numSets` and `blockOffset < lineSize`; so on a cache
with that number of sets the bounds assertion in `getSetIndex`, `getSetLock` and
`invalidateSingleLine` never fails. -/
theorem CacheBase.splitAddress_bounds_and_reconstruct (lb ls addr : Nat) :
    CacheBase.reconstruct lb ls (CacheBase.splitAddress lb ls addr).1
        (CacheBase.splitAddress lb ls addr).2.1 (CacheBase.splitAddress lb ls addr).2.2 = addr ∧
      (CacheBase.splitAddress lb ls addr).2.1 < 2 ^ ls ∧
      (CacheBase.splitAddress lb ls addr).2.2 < 2 ^ lb ∧
      ∀ self : CacheSets, self.m_num_sets = 2 ^ ls →
        Cache.getSetIndex (CacheBase.splitAddress lb ls) self addr =
            some (CacheBase.splitAddress lb ls addr).2.1 ∧
          Cache.getSetLock (CacheBase.splitAddress lb ls) self addr =
            some (CacheBase.splitAddress lb ls addr).2.1 ∧
          ∀ invalidate : CacheSet → Nat → Bool × CacheSet,
            (Cache.invalidateSingleLine (CacheBase.splitAddress lb ls) invalidate self
              addr).isSome = true := by
  have hset : (CacheBase.splitAddress lb ls addr).2.1 < 2 ^ ls :=
    Nat.mod_lt _ (Nat.pow_pos (by decide))
  have hoff : (CacheBase.splitAddress lb ls addr).2.2 < 2 ^ lb :=
    Nat.mod_lt _ (Nat.pow_pos (by decide))
  refine ⟨splitAddress_reconstruct lb ls addr, hset, hoff, ?_⟩
  intro self hnum
  have hlt : (CacheBase.splitAddress lb ls addr).2.1 < self.m_num_sets := by
    rw [hnum]
    exact hset
  refine ⟨?_, ?_, ?_⟩
  · simp only [Cache.getSetIndex, hlt, if_true]
  · simp only [Cache.getSetLock, hlt, if_true]
  · intro invalidate
    simp only [Cache.invalidateSingleLine, hlt, if_true, Option.isSome_some]

/-- Witness of C17: address `0x1234` in a cache of 2 sets with 64-byte lines. -/
theorem CacheBase.splitAddress_bounds_and_reconstruct_witness :
    CacheBase.reconstruct 6 1 (CacheBase.splitAddress 6 1 0x1234).1
        (CacheBase.splitAddress 6 1 0x1234).2.1 (CacheBase.splitAddress 6 1 0x1234).2.2 =
        0x1234 ∧
      (CacheBase.splitAddress 6 1 0x1234).2.1 < 2 ^ 1 ∧
      (CacheBase.splitAddress 6 1 0x1234).2.2 < 2 ^ 6 ∧
      Cache.getSetIndex (CacheBase.splitAddress 6 1) (sampleSets 64 (fun _ => 0)) 0x1234 =
        some (CacheBase.splitAddress 6 1 0x1234).2.1 ∧
      Cache.getSetLock (CacheBase.splitAddress 6 1) (sampleSets 64 (fun _ => 0)) 0x1234 =
        some (CacheBase.splitAddress 6 1 0x1234).2.1 ∧
      ∀ invalidate : CacheSet → Nat → Bool × CacheSet,
        (Cache.invalidateSingleLine (CacheBase.splitAddress 6 1) invalidate
          (sampleSets 64 (fun _ => 0)) 0x1234).isSome = true :=
  ⟨(CacheBase.splitAddress_bounds_and_reconstruct 6 1 0x1234).1,
    (CacheBase.splitAddress_bounds_and_reconstruct 6 1 0x1234).2.1,
    (CacheBase.splitAddress_bounds_and_reconstruct 6 1 0x1234).2.2.1,
    (CacheBase.splitAddress_bounds_and_reconstruct 6 1 0x1234).2.2.2
      (sampleSets 64 (fun _ => 0)) rfl⟩

/-! ## Usage mask of an empty byte range -/

theorem pred_div_eq_of_unaligned (offset n : Nat) (hn : 0 < n) (hun : offset % n ≠ 0) :
    (offset - 1) / n = offset / n := by
  have hdm : offset / n * n + offset % n = offset := by
    rw [Nat.mul_comm]
    exact Nat.div_add_mod offset n
  have hlt : offset % n < n := Nat.mod_lt _ hn
  apply Nat.div_eq_of_lt_le
  · omega
  · rw [Nat.add_mul, Nat.one_mul]
    omega

theorem updateUsageOffsetSize_zero_eq_one (usedBits B : Nat) (self : CacheBlockInfo)
    (offset : Nat) (h32 : offset < 2 ^ 32) (hun : offset % 2 ^ B ≠ 0) :
    self.updateUsageOffsetSize usedBits B offset 0 =
      self.updateUsageOffsetSize usedBits B offset 1 := by
  have hpos : 0 < offset := by
    rcases Nat.eq_zero_or_pos offset with h | h
    · rw [h] at hun
      simp at hun
    · exact h
  have h0 : (offset + 0 + (2 ^ 32 - 1)) % 2 ^ 32 = offset - 1 := by
    norm_num at *
    omega
  have h1 : (offset + 1 + (2 ^ 32 - 1)) % 2 ^ 32 = offset := by
    norm_num at *
    omega
  have hdiv : (offset - 1) >>> B = offset >>> B := by
    rw [Nat.shiftRight_eq_div_pow, Nat.shiftRight_eq_div_pow]
    exact pred_div_eq_of_unaligned offset (2 ^ B) (Nat.pow_pos (by decide)) hun
  simp only [CacheBlockInfo.updateUsageOffsetSize, h0, h1, shiftRight32, hdiv]

theorem rangeMask_single (q : Nat) (hq : q < 64) :
    (2 ^ (q + 1) - 1) &&& bitNot 64 (2 ^ q - 1) = 2 ^ q := by
  apply Nat.eq_of_testBit_eq
  intro k
  rw [testBit_rangeMask q q k (by omega), Nat.testBit_two_pow]
  by_cases h : q = k
  · subst h
    simp [hq]
  · have h2 : ¬ (k ≤ q ∧ k < 64 ∧ q ≤ k) := by omega
    simp only [h, decide_False]
    by_cases hk1 : k ≤ q <;> by_cases hk2 : q ≤ k <;> simp [hk1, hk2]
    omega

/-- C20, on the code: for an offset that is not a multiple of the region width, the
call `updateUsage(offset, 0)` with the empty byte range `[offset, offset+0)` marks
the region containing `offset`: on a record in which that region is not yet
recorded it returns true and sets the region's bit. -/
theorem CacheBlockInfo.updateUsage_empty_range_marks_region (usedBits B : Nat)
    (self : CacheBlockInfo) (offset : Nat)
    (hB : B < 32) (h32 : offset < 2 ^ 32) (hun : offset % 2 ^ B ≠ 0)
    (hreg : offset / 2 ^ B < min usedBits 63) (hself : self.m_used < 2 ^ usedBits)
    (hclear : self.m_used.testBit (offset / 2 ^ B) = false) :
    self.updateUsageOffsetSize usedBits B offset 0 =
      some (true, { self with m_used := self.m_used ||| 2 ^ (offset / 2 ^ B) }) := by
  have hq63 : offset / 2 ^ B < 63 := lt_of_lt_of_le hreg (min_le_right _ _)
  have hqw : offset / 2 ^ B < usedBits := lt_of_lt_of_le hreg (min_le_left _ _)
  have hmask : 2 ^ (offset / 2 ^ B) < 2 ^ usedBits := Nat.pow_lt_pow_right (by decide) hqw
  have hcall := updateUsageOffsetSize_eq usedBits B self offset 1 hB (Nat.le_refl 1)
    (by omega) (by simpa using hq63)
  simp only [Nat.add_sub_cancel] at hcall
  rw [updateUsageOffsetSize_zero_eq_one usedBits B self offset h32 hun, hcall,
    rangeMask_single _ (by omega)]
  have hflag : (self.updateUsage usedBits (2 ^ (offset / 2 ^ B))).1 = true :=
    (updateUsage_flag_iff usedBits self _ hself hmask).2
      ⟨offset / 2 ^ B, by simp [Nat.testBit_two_pow], hclear⟩
  have hrec := updateUsage_used_eq usedBits self (2 ^ (offset / 2 ^ B)) hself hmask
  exact congrArg some (Prod.ext hflag hrec)

/-- C20, failing input: an 8-bit usage mask over 8-byte regions, a record with no
region recorded, `updateUsage(1, 0)`: the call returns true and records region 0. -/
theorem CacheBlockInfo.updateUsage_empty_range_marks_region_witness :
    CacheBlockInfo.updateUsageOffsetSize 8 3 ⟨0, cstate_t.INVALID, 0, 0, 0, 0⟩ 1 0 =
      some (true, { CacheBlockInfo.mk 0 cstate_t.INVALID 0 0 0 0 with
        m_used := (CacheBlockInfo.mk 0 cstate_t.INVALID 0 0 0 0).m_used ||| 2 ^ (1 / 2 ^ 3) }) :=
  CacheBlockInfo.updateUsage_empty_range_marks_region 8 3 ⟨0, cstate_t.INVALID, 0, 0, 0, 0⟩ 1
    (by decide) (by decide) (by decide) (by decide) (by decide) (by decide)

/-- With 8-byte regions, `updateUsage(0, 0)` is undefined: `offset + size - 1` wraps to
`2^32 - 1` in `UInt32`, and `1ull` is then shifted left by `2^29` bits. -/
theorem updateUsageOffsetSize_zero_zero_undefined (usedBits : Nat) (self : CacheBlockInfo) :
    self.updateUsageOffsetSize usedBits 3 0 0 = none := by
  simp [CacheBlockInfo.updateUsageOffsetSize, shiftRight32, shiftLeft64]
